import Mathlib

/-!
# Shallow embedding of the kas Configuration Resolution core

This file embeds, in Lean 4, the parts of the kas repository that the
verified claims are about:

* `src/kas/config.py` — the `Context` class, `load_configuration_file`
  (the Closure Engine loop), `get_proxy_environ`, `get_misc_environ`,
  and the `Context` accessors (`get_environment`, `get_repo_dict`,
  `get_bitbake_targets`, `get_multiconfig`, the conf-header getters,
  `set_config`, `set_build_environment`, `update_environment`);
* `src/kas/libcmds.py` — the `Macro`/`Command` pipeline and the concrete
  commands (in particular `WriteConfig`);
* `src/kas/build.py` — the command list assembled by the build plugin.

Python's untyped values are modelled by `KValue`; Python `dict`s are
modelled by insertion-ordered association lists (`List (String × α)`)
with Python's `d[k] = v` / `d.update(e)` semantics.  Fallible Python
code (code that can raise `TypeError`, `AttributeError`, `IndexError`,
`KeyError`) returns `Except PyErr _`.  The include handler
(`kas/includehandler.py`) is not part of the source tree; following the
specification it is modelled as an oracle function from the known
repository-path map to a merged configuration plus the list of missing
repository names.
-/

set_option autoImplicit false

namespace Kas

/-- Python exception kinds that the embedded code can raise. -/
inductive PyErr where
  | typeError
  | attributeError
  | indexError
  | keyError
  deriving DecidableEq, Repr

instance {e a : Type} [DecidableEq e] [DecidableEq a] : DecidableEq (Except e a) :=
  fun x y =>
    match x, y with
    | .ok u, .ok v =>
      if h : u = v then .isTrue (by rw [h]) else .isFalse (by simp [h])
    | .error u, .error v =>
      if h : u = v then .isTrue (by rw [h]) else .isFalse (by simp [h])
    | .ok _, .error _ => .isFalse (by simp)
    | .error _, .ok _ => .isFalse (by simp)

/-- Untyped Python values, as far as the kas configuration model needs
them: `None`, strings, integers, lists and (string-keyed) dicts. -/
inductive KValue where
  | none
  | str (s : String)
  | int (n : Int)
  | list (xs : List KValue)
  | dict (d : List (String × KValue))

namespace KValue

mutual
/-- Structural equality test on `KValue` (Python `==` on these shapes). -/
def beqv : KValue → KValue → Bool
  | .none, .none => true
  | .str a, .str b => a == b
  | .int a, .int b => a == b
  | .list xs, .list ys => beqvList xs ys
  | .dict xs, .dict ys => beqvDict xs ys
  | _, _ => false

/-- Pointwise `beqv` on lists. -/
def beqvList : List KValue → List KValue → Bool
  | [], [] => true
  | x :: xs, y :: ys => beqv x y && beqvList xs ys
  | _, _ => false

/-- Pointwise `beqv` on dict item lists. -/
def beqvDict : List (String × KValue) → List (String × KValue) → Bool
  | [], [] => true
  | (k, v) :: xs, (l, w) :: ys => k == l && beqv v w && beqvDict xs ys
  | _, _ => false
end

mutual
theorem beqv_iff : ∀ a b : KValue, beqv a b = true ↔ a = b
  | .none, .none => by simp [beqv]
  | .none, .str _ | .none, .int _ | .none, .list _ | .none, .dict _ => by simp [beqv]
  | .str _, .none | .str _, .int _ | .str _, .list _ | .str _, .dict _ => by simp [beqv]
  | .int _, .none | .int _, .str _ | .int _, .list _ | .int _, .dict _ => by simp [beqv]
  | .list _, .none | .list _, .str _ | .list _, .int _ | .list _, .dict _ => by simp [beqv]
  | .dict _, .none | .dict _, .str _ | .dict _, .int _ | .dict _, .list _ => by simp [beqv]
  | .str a, .str b => by simp [beqv]
  | .int a, .int b => by simp [beqv]
  | .list xs, .list ys => by
      simpa [beqv] using beqvList_iff xs ys
  | .dict xs, .dict ys => by
      simpa [beqv] using beqvDict_iff xs ys

theorem beqvList_iff : ∀ xs ys : List KValue, beqvList xs ys = true ↔ xs = ys
  | [], [] => by simp [beqvList]
  | [], _ :: _ => by simp [beqvList]
  | _ :: _, [] => by simp [beqvList]
  | x :: xs, y :: ys => by
      simp [beqvList, beqv_iff x y, beqvList_iff xs ys]

theorem beqvDict_iff : ∀ xs ys : List (String × KValue), beqvDict xs ys = true ↔ xs = ys
  | [], [] => by simp [beqvDict]
  | [], _ :: _ => by simp [beqvDict]
  | _ :: _, [] => by simp [beqvDict]
  | (k, v) :: xs, (l, w) :: ys => by
      simp [beqvDict, beqv_iff v w, beqvDict_iff xs ys, Prod.ext_iff, and_assoc]
end

instance : DecidableEq KValue := fun a b => decidable_of_iff _ (beqv_iff a b)

/-- Python truthiness (`bool(v)`), restricted to the value shapes of
`KValue`: `None`, `""`, `0`, `[]` and `\x7b\x7d` are falsy. -/
def pyTruthy : KValue → Bool
  | .none => false
  | .str s => !(s == "")
  | .int n => !(n == 0)
  | .list xs => !xs.isEmpty
  | .dict d => !d.isEmpty

mutual
/-- Python `repr(v)` (approximated: string escaping inside `repr` of a
string is not modelled, which no claim exercises). -/
def pyRepr : KValue → String
  | .none => "None"
  | .str s => "\x27" ++ s ++ "\x27"
  | .int n => toString n
  | .list xs => "[" ++ pyReprList xs ++ "]"
  | .dict d => "\x7b" ++ pyReprDict d ++ "\x7d"

/-- `repr` of the comma-separated elements of a Python list. -/
def pyReprList : List KValue → String
  | [] => ""
  | [x] => pyRepr x
  | x :: xs => pyRepr x ++ ", " ++ pyReprList xs

/-- `repr` of the comma-separated items of a Python dict. -/
def pyReprDict : List (String × KValue) → String
  | [] => ""
  | [(k, v)] => "\x27" ++ k ++ "\x27: " ++ pyRepr v
  | (k, v) :: xs => "\x27" ++ k ++ "\x27: " ++ pyRepr v ++ ", " ++ pyReprDict xs
end

/-- Python `str(v)`: the identity on strings, `repr`-like elsewhere. -/
def pyStr : KValue → String
  | .str s => s
  | v => pyRepr v

end KValue

/-! ## Python dict operations on association lists -/

/-- `d.get(k)` / `d[k]`-style lookup: first entry with the given key.
Association lists built by `dinsert`/`dupdate` have unique keys, as
Python dicts do. -/
def dlookup {α : Type} (d : List (String × α)) (k : String) : Option α :=
  (d.find? (fun p => p.1 = k)).map Prod.snd

/-- Python `d[k] = v`: replace the entry in place if the key is present
(keeping its position), otherwise append the new entry.  Python dict
keys are unique, so replacing the first occurrence is exact. -/
def dinsert {α : Type} : List (String × α) → String → α → List (String × α)
  | [], k, v => [(k, v)]
  | p :: d, k, v => if p.1 = k then (k, v) :: d else p :: dinsert d k v

/-- Python `d.update(e)`: insert every entry of `e` into `d`, in order. -/
def dupdate {α : Type} (d e : List (String × α)) : List (String × α) :=
  e.foldl (fun acc p => dinsert acc p.1 p.2) d

/-- The keys of an association list. -/
def dkeys {α : Type} (d : List (String × α)) : List String :=
  d.map Prod.fst

/-- A well-formed Python dict image: no duplicate keys. -/
abbrev DictWF {α : Type} (d : List (String × α)) : Prop :=
  (dkeys d).Nodup

@[simp]
theorem dlookup_nil {α : Type} (k : String) :
    dlookup ([] : List (String × α)) k = Option.none := rfl

theorem dlookup_cons {α : Type} (p : String × α) (d : List (String × α)) (k : String) :
    dlookup (p :: d) k = if p.1 = k then some p.2 else dlookup d k := by
  by_cases h : p.1 = k <;> simp [dlookup, List.find?, h]

@[simp]
theorem dkeys_nil {α : Type} : dkeys ([] : List (String × α)) = [] := rfl

@[simp]
theorem dkeys_cons {α : Type} (p : String × α) (d : List (String × α)) :
    dkeys (p :: d) = p.1 :: dkeys d := rfl

theorem dlookup_eq_none_of_not_mem_keys {α : Type} {d : List (String × α)} {k : String}
    (h : k ∉ dkeys d) : dlookup d k = Option.none := by
  induction d with
  | nil => rfl
  | cons p rest ih =>
    rw [dlookup_cons]
    have h1 : ¬ p.1 = k := fun he => h (by simp [he])
    have h2 : k ∉ dkeys rest := fun hm => h (by simp [hm])
    simp [h1, ih h2]

theorem dlookup_dinsert {α : Type} (d : List (String × α)) (k k' : String) (v : α) :
    dlookup (dinsert d k v) k' = if k = k' then some v else dlookup d k' := by
  induction d with
  | nil =>
    show dlookup [(k, v)] k' = _
    rw [dlookup_cons]
  | cons p rest ih =>
    show dlookup (if p.1 = k then (k, v) :: rest else p :: dinsert rest k v) k' = _
    by_cases hpk : p.1 = k
    · rw [if_pos hpk, dlookup_cons, dlookup_cons]
      by_cases hkk : k = k'
      · simp [hkk]
      · have hpk' : ¬ p.1 = k' := by rw [hpk]; exact hkk
        simp [hkk, hpk']
    · rw [if_neg hpk, dlookup_cons, dlookup_cons, ih]
      by_cases hpk' : p.1 = k'
      · have hkk : ¬ k = k' := fun h => hpk (h ▸ hpk')
        simp [hpk', hkk]
      · simp [hpk']

/-- Per-key semantics of Python `d.update(e)` for a duplicate-free `e`:
a key of `e` gets `e`'s value, every other key keeps `d`'s value. -/
theorem dlookup_dupdate {α : Type} (d e : List (String × α)) (k : String)
    (he : DictWF e) :
    dlookup (dupdate d e) k =
      match dlookup e k with
      | some v => some v
      | Option.none => dlookup d k := by
  induction e generalizing d with
  | nil => simp [dupdate]
  | cons p rest ih =>
    have hcons := List.nodup_cons.mp (by simpa [DictWF] using he)
    have hwf : DictWF rest := hcons.2
    have hnotin : p.1 ∉ dkeys rest := hcons.1
    show dlookup (dupdate (dinsert d p.1 p.2) rest) k = _
    rw [ih _ hwf, dlookup_cons, dlookup_dinsert]
    by_cases hpk : p.1 = k
    · subst hpk
      rw [dlookup_eq_none_of_not_mem_keys hnotin]
      simp
    · simp [hpk]

/-! ## Python string helpers -/

/-- Auxiliary scanner for `pySplit`: `cur` holds the (reversed) current
token. -/
def splitWSAux : List Char → List Char → List String
  | [], cur => if cur.isEmpty then [] else [String.mk cur.reverse]
  | c :: cs, cur =>
    if c.isWhitespace then
      if cur.isEmpty then splitWSAux cs [] else String.mk cur.reverse :: splitWSAux cs []
    else
      splitWSAux cs (c :: cur)

/-- Python `s.split()` with no argument: split on runs of whitespace and
drop empty tokens. -/
def pySplit (s : String) : List String :=
  splitWSAux s.toList []

/-- Python `s.startswith(prefix)`.  (Lean's `String.startsWith` is
implemented by well-founded recursion on byte positions, which the
kernel cannot reduce; this char-list version evaluates.) -/
def pyStartsWith (s pre : String) : Bool :=
  pre.toList.isPrefixOf s.toList

/-- Auxiliary scanner for `pySplitChar`. -/
def splitSepAux (sep : Char) : List Char → List Char → List String
  | [], cur => [String.mk cur.reverse]
  | c :: cs, cur =>
    if c = sep then String.mk cur.reverse :: splitSepAux sep cs []
    else splitSepAux sep cs (c :: cur)

/-- Python `s.split(sep)` for a single-character separator (the only
shape the source uses: `i.split(\x27:\x27)`). -/
def pySplitChar (s : String) (sep : Char) : List String :=
  splitSepAux sep s.toList []

/-- Python `s.lower()` (ASCII, which covers the sentinel strings). -/
def pyLower (s : String) : String :=
  String.mk (s.toList.map Char.toLower)

/-- Python `sep.join(parts)`. -/
def pyJoin (sep : String) : List String → String
  | [] => ""
  | [x] => x
  | x :: xs => x ++ sep ++ pyJoin sep xs

/-- Code-point lexicographic comparison on char lists (the order Python
uses for strings, and the one Lean's `String` order denotes — spelled
out structurally so that the kernel can evaluate it). -/
def charListLe : List Char → List Char → Bool
  | [], _ => true
  | _ :: _, [] => false
  | a :: as, b :: bs =>
    if a.toNat < b.toNat then true
    else if b.toNat < a.toNat then false
    else charListLe as bs

/-- String comparison by code points, as Python compares strings. -/
def pyStrLe (a b : String) : Bool :=
  charListLe a.data b.data

/-- Insertion step of `pySorted`. -/
def pyInsertLe (x : String) : List String → List String
  | [] => [x]
  | y :: ys => if pyStrLe x y then x :: y :: ys else y :: pyInsertLe x ys

/-- Python `sorted(strings)` (stable insertion sort; Python compares
strings by code points, as Lean's `String` order does). -/
def pySorted : List String → List String
  | [] => []
  | x :: xs => pyInsertLe x (pySorted xs)

/-- Insertion step of `pySortedByKey`. -/
def pyInsertItemLe (x : String × KValue) :
    List (String × KValue) → List (String × KValue)
  | [] => [x]
  | y :: ys => if pyStrLe x.1 y.1 then x :: y :: ys else y :: pyInsertItemLe x ys

/-- Python `sorted(d.items())` for a dict: sorts items by key (dict keys
are unique, so the value component never gets compared). -/
def pySortedByKey : List (String × KValue) → List (String × KValue)
  | [] => []
  | x :: xs => pyInsertItemLe x (pySortedByKey xs)

/-- POSIX `os.path.join(a, b)` for the cases exercised here: an absolute
`b` replaces `a`; otherwise the parts are joined with exactly one `/`. -/
def pyPathJoin (a b : String) : String :=
  if b.toList.head? = some (Char.ofNat 47) then b
  else if a = "" then b
  else if a.toList.getLast? = some (Char.ofNat 47) then a ++ b
  else a ++ "/" ++ b

/-! ## The configuration map and the execution context

A merged kas configuration (`Merged Configuration` in the spec) is an
untyped Python dict; we embed it as an association list of `KValue`s. -/

/-- The merged configuration map. -/
abbrev Config := List (String × KValue)

/-- A process-environment snapshot (`os.environ` or the `os_environ`
argument): a string-valued Python dict. -/
abbrev OsEnv := List (String × String)

/-- `config.get(key, default)`. -/
def cfgGet (c : Config) (k : String) (default : KValue) : KValue :=
  (dlookup c k).getD default

/-- `BB_ENV_EXTRAWHITE_ADDITIONALS` from `config.py`. -/
def bbEnvExtrawhiteAdditionals : List String := ["SSTATE_DIR", "DL_DIR", "TMPDIR"]

/-- The proxy variable allow-list of `get_proxy_environ`. -/
def proxyAllowList : List String :=
  ["http_proxy", "https_proxy", "ftp_proxy", "no_proxy",
   "HTTP_PROXY", "HTTPS_PROXY", "FTP_PROXY", "NO_PROXY"]

/-- The misc variable allow-list of `get_misc_environ`. -/
def miscAllowList : List String :=
  ["SSH_AGENT_PID", "SSH_AUTH_SOCK", "SHELL", "TERM", "GIT_PROXY_COMMAND"] ++
    bbEnvExtrawhiteAdditionals

/-- Embeds `get_proxy_environ(os_environ)`.  The source's dict
comprehension reads `os_environ.get[var_name]`: it subscripts the bound
method `get` instead of calling it, so Python raises
`TypeError: \x27builtin_function_or_method\x27 object is not subscriptable`
as soon as the comprehension produces its first item.  The comprehension
iterates `os_environ.keys() & \x7bal low-list\x7d`, so the `TypeError` fires
precisely when that intersection is non-empty; for an empty intersection
the comprehension never evaluates its value expression and yields the
empty dict. -/
def getProxyEnviron (osEnviron : OsEnv) : Except PyErr OsEnv :=
  if (dkeys osEnviron).any (fun k => proxyAllowList.contains k) then
    .error .typeError
  else
    .ok []

/-- Embeds `get_misc_environ(os_environ)`: same `os_environ.get[var_name]`
subscript-a-method slip as `get_proxy_environ`. -/
def getMiscEnviron (osEnviron : OsEnv) : Except PyErr OsEnv :=
  if (dkeys osEnviron).any (fun k => miscAllowList.contains k) then
    .error .typeError
  else
    .ok []

/-- What the comprehension of `get_proxy_environ` is evidently meant to
produce (per its docstring and the spec): every allow-listed variable
present in the process environment, mapped to its unmodified value. -/
def specProxyEnviron (osEnviron : OsEnv) : OsEnv :=
  osEnviron.filter (fun p => proxyAllowList.contains p.1)

/-- The intended output of `get_misc_environ`, analogously. -/
def specMiscEnviron (osEnviron : OsEnv) : OsEnv :=
  osEnviron.filter (fun p => miscAllowList.contains p.1)

/-- Embeds the `Context` class of `config.py`.  The `_override_environ`
attribute is initialized to the empty dict and never read in the three
source files, so it is omitted. -/
structure Context where
  configRepoPath : KValue := KValue.none
  workDir : String := ""
  osEnviron : OsEnv := []
  environ : OsEnv := []
  buildEnviron : OsEnv := []
  configOverride : Config := []
  config : Config := []
  deriving DecidableEq

namespace Context

/-- `Context.set_config`: replace the configuration wholesale, then merge
the creation-time overrides on top (`self._config.update(self._config_override)`). -/
def setConfig (ctx : Context) (c : Config) : Context :=
  { ctx with config := dupdate c ctx.configOverride }

/-- `Context.__init__`: stores the constructor arguments and runs
`set_config(config or \x7b\x7d)`. -/
def mkContext (configRepoPath : KValue) (workDir : String) (osEnviron environ : OsEnv)
    (config : Config) (configOverride : Config) : Context :=
  setConfig
    { configRepoPath := configRepoPath, workDir := workDir, osEnviron := osEnviron,
      environ := environ, buildEnviron := [], configOverride := configOverride,
      config := [] }
    config

/-- `Context.set_config_repo_path`. -/
def setConfigRepoPath (ctx : Context) (p : KValue) : Context :=
  { ctx with configRepoPath := p }

/-- `Context.set_build_environment`. -/
def setBuildEnvironment (ctx : Context) (env : OsEnv) : Context :=
  { ctx with buildEnviron := env }

/-- `Context.update_environment`. -/
def updateEnvironment (ctx : Context) (env : OsEnv) : Context :=
  { ctx with environ := dupdate ctx.environ env }

/-- `Context.build_dir` (property): `os.path.join(self._work_dir, 'build')`. -/
def buildDir (ctx : Context) : String :=
  pyPathJoin ctx.workDir "build"

/-- Lift a string-valued dict into a `KValue`-valued dict (Python needs
no such step; the embedding does, because `get_environment` mixes
configuration values with process-environment strings). -/
def envLift (e : OsEnv) : List (String × KValue) :=
  e.map (fun p => (p.1, KValue.str p.2))

/-- The `env` section of the configuration, as the dict that
`self._config.get(\x27env\x27, \x7b\x7d)` iterates.  A present but
non-dict `env` value makes the comprehension of `get_environment` raise
`TypeError` (an empty string or list iterates to nothing). -/
def configEnvDict (ctx : Context) : Except PyErr (List (String × KValue)) :=
  match cfgGet ctx.config "env" (KValue.dict []) with
  | KValue.dict d => .ok d
  | KValue.str s => if s = "" then .ok [] else .error .typeError
  | KValue.list xs => if xs.isEmpty then .ok [] else .error .typeError
  | _ => .error .typeError

/-- The comprehension of `get_environment`:
`\x7bvar: os_environ.get(var, config_env[var]) for var in config_env\x7d` —
each configuration-declared variable, individually replaced by the
identically-named process-environment variable when present. -/
def resolveConfigEnv (osEnv : OsEnv) (d : List (String × KValue)) :
    List (String × KValue) :=
  d.map (fun p =>
    (p.1, match dlookup osEnv p.1 with
          | some s => KValue.str s
          | Option.none => p.2))

/-- `Context.get_environment`: the configuration-declared variables, each
replaced by the identically-named process-environment variable when
present, layered over the build-phase overlay and under the explicit
overlay (`env = build.copy(); env.update(config_env); env.update(self._environ)`). -/
def getEnvironment (ctx : Context) : Except PyErr (List (String × KValue)) :=
  match configEnvDict ctx with
  | .error e => .error e
  | .ok d =>
    .ok (dupdate (dupdate (envLift ctx.buildEnviron) (resolveConfigEnv ctx.osEnviron d))
          (envLift ctx.environ))

end Context

/-! ## Repository descriptors (`Context.get_repo_dict`) -/

/-- A Repository Descriptor.  The `Repo` class itself lives in
`kas/repos.py`, which is not part of the source tree; modelled from the
spec (§3 "Repository Descriptor") as a value object storing exactly the
constructor arguments `get_repo_dict` passes: location, local path,
revision specifier, contributed layer list, and the flag cleared by
`disable_git_operations()`. -/
structure Repo where
  url : KValue
  path : KValue
  refspec : KValue := KValue.none
  layers : List String
  gitOperations : Bool := true
  deriving DecidableEq

/-- The disabled-sentinel strings of the layer filter in `get_repo_dict`. -/
def layerDisabledSentinels : List String :=
  ["disabled", "excluded", "n", "no", "0", "false"]

/-- The layer filter of `get_repo_dict`: iterate the `layers` dict and
keep each key whose value does not stringify (lower-cased) to a
disabled sentinel.  Iterating a non-dict truthy value raises `TypeError`
when Python indexes it with a layer name (an empty string or list
iterates to nothing). -/
def pyLayers : KValue → Except PyErr (List String)
  | KValue.dict d =>
      .ok (d.filterMap (fun p =>
        if layerDisabledSentinels.contains (pyLower (KValue.pyStr p.2)) then
          Option.none
        else
          some p.1))
  | KValue.str s => if s = "" then .ok [] else .error .typeError
  | KValue.list xs => if xs.isEmpty then .ok [] else .error .typeError
  | _ => .error .typeError

/-- One iteration of `get_repo_dict`'s loop body, after the
`repo_config_dict[repo] or \x7b\x7d` normalization: build a `Repo` from a
repository's attribute dict. -/
def buildRepo (configRepoPath : KValue) (workDir : String) (repoKey : String)
    (d : List (String × KValue)) : Except PyErr Repo :=
  match pyLayers ((dlookup d "layers").getD (KValue.dict [])) with
  | .error e => .error e
  | .ok layers =>
    let url := (dlookup d "url").getD KValue.none
    let name := (dlookup d "name").getD (KValue.str repoKey)
    let refspec := (dlookup d "refspec").getD KValue.none
    let path := (dlookup d "path").getD KValue.none
    if url = KValue.none then
      -- No git operation on this repository.
      let path := if path = KValue.none then configRepoPath else path
      .ok { url := path, path := path, layers := layers, gitOperations := false }
    else if path.pyTruthy then
      .ok { url := url, path := path, refspec := refspec, layers := layers }
    else
      match name with
      | KValue.str n =>
          .ok { url := url, path := KValue.str (pyPathJoin workDir n),
                refspec := refspec, layers := layers }
      | _ => .error .typeError

/-- `repo_config_dict[repo] = repo_config_dict[repo] or \x7b\x7d`: a falsy
entry is replaced by a fresh empty dict. -/
def normRepoEntry (v : KValue) : KValue :=
  if v.pyTruthy then v else KValue.dict []

/-- Build the name → `Repo` dict from the (already normalized) `repos`
item list.  A truthy non-dict entry raises when Python calls `.get` on
it. -/
def buildRepos (configRepoPath : KValue) (workDir : String) :
    List (String × KValue) → Except PyErr (List (String × Repo))
  | [] => .ok []
  | (n, v) :: rest =>
    match v with
    | KValue.dict d =>
      match buildRepo configRepoPath workDir n d with
      | .error e => .error e
      | .ok r =>
        match buildRepos configRepoPath workDir rest with
        | .error e => .error e
        | .ok rs => .ok ((n, r) :: rs)
    | _ => .error .attributeError

/-- `Context.get_repo_dict`, as a pure function of the merged
configuration and the context parameters it reads.  Besides the repo
dict it returns the configuration as left behind: the loop's write-back
`repo_config_dict[repo] = repo_config_dict[repo] or \x7b\x7d` mutates the
dict stored under `repos` in `self._config` (when that key is present —
an absent key yields a fresh dict and no aliasing), replacing falsy
entries by empty dicts.  A present non-dict `repos` value either
iterates to nothing (empty string or list) or raises `TypeError`. -/
def getRepoDictPure (configRepoPath : KValue) (workDir : String) (cfg : Config) :
    Except PyErr (List (String × Repo) × Config) :=
  match dlookup cfg "repos" with
  | Option.none => .ok ([], cfg)
  | some (KValue.dict d) =>
      let dn := d.map (fun p => (p.1, normRepoEntry p.2))
      match buildRepos configRepoPath workDir dn with
      | .error e => .error e
      | .ok rd => .ok (rd, dinsert cfg "repos" (KValue.dict dn))
  | some (KValue.str s) => if s = "" then .ok ([], cfg) else .error .typeError
  | some (KValue.list xs) => if xs.isEmpty then .ok ([], cfg) else .error .typeError
  | some _ => .error .typeError

namespace Context

/-- `Context.get_repo_dict`: the dict of `Repo` descriptors, together
with the context as its configuration mutation leaves it. -/
def getRepoDict (ctx : Context) : Except PyErr (List (String × Repo) × Context) :=
  match getRepoDictPure ctx.configRepoPath ctx.workDir ctx.config with
  | .error e => .error e
  | .ok (rd, cfg) => .ok (rd, { ctx with config := cfg })

/-- `Context.get_repos`: `list(self.get_repo_dict().values())`. -/
def getRepos (ctx : Context) : Except PyErr (List Repo × Context) :=
  match getRepoDict ctx with
  | .error e => .error e
  | .ok (rd, ctx2) => .ok (rd.map Prod.snd, ctx2)

/-! ### Scalar accessors -/

end Context

/-- The `environ_targets` list of `get_bitbake_targets`:
`[i for i in os.environ.get(\x27KAS_TARGET\x27, \x27\x27).split() if i]`. -/
def kasTargetTokens (procEnv : OsEnv) : List String :=
  (pySplit ((dlookup procEnv "KAS_TARGET").getD "")).filter (fun i => i ≠ "")

namespace Context

/-- `Context.get_bitbake_targets`.  The method reads the module-global
`os.environ` (not the snapshot stored in the context), so the process
environment is an explicit argument.  The result is whatever Python
returns: a list of the `KAS_TARGET` tokens, a singleton list around a
configured string, the configured non-string value unchanged, or the
default `[\x27core-image-minimal\x27]`. -/
def getBitbakeTargets (procEnv : OsEnv) (ctx : Context) : KValue :=
  let environTargets := kasTargetTokens procEnv
  if environTargets ≠ [] then
    KValue.list (environTargets.map KValue.str)
  else
    match cfgGet ctx.config "target" (KValue.str "core-image-minimal") with
    | KValue.str s => KValue.list [KValue.str s]
    | v => v

/-- `Context.get_bitbake_task`: `os.environ.get(\x27KAS_TASK\x27, config
task or \x27build\x27)`. -/
def getBitbakeTask (procEnv : OsEnv) (ctx : Context) : KValue :=
  match dlookup procEnv "KAS_TASK" with
  | some s => KValue.str s
  | Option.none => cfgGet ctx.config "task" (KValue.str "build")

/-- `Context.get_machine`. -/
def getMachine (procEnv : OsEnv) (ctx : Context) : KValue :=
  match dlookup procEnv "KAS_MACHINE" with
  | some s => KValue.str s
  | Option.none => cfgGet ctx.config "machine" (KValue.str "qemu")

/-- `Context.get_distro`. -/
def getDistro (procEnv : OsEnv) (ctx : Context) : KValue :=
  match dlookup procEnv "KAS_DISTRO" with
  | some s => KValue.str s
  | Option.none => cfgGet ctx.config "distro" (KValue.str "poky")

/-- `Context._get_conf_header`: render the named mapping as
`# <key>\n<value>\n` blocks, sorted by key.  A present non-dict value
has no `.items()`. -/
def getConfHeader (ctx : Context) (headerName : String) : Except PyErr String :=
  match cfgGet ctx.config headerName (KValue.dict []) with
  | KValue.dict d =>
      .ok ((pySortedByKey d).foldl
        (fun acc p => acc ++ "# " ++ p.1 ++ "\n" ++ KValue.pyStr p.2 ++ "\n") "")
  | _ => .error .attributeError

/-- `Context.get_bblayers_conf_header`. -/
def getBBLayersConfHeader (ctx : Context) : Except PyErr String :=
  getConfHeader ctx "bblayers_conf_header"

/-- `Context.get_local_conf_header`. -/
def getLocalConfHeader (ctx : Context) : Except PyErr String :=
  getConfHeader ctx "local_conf_header"

/-- The name extraction of `get_multiconfig` for one target: a target
must be a string (`.startswith`); a target that starts with
`multiconfig` contributes `i.split(\x27:\x27)[1]`, raising `IndexError`
when there is no `:`. -/
def multiconfigName : KValue → Except PyErr (Option String)
  | KValue.str s =>
      if pyStartsWith s "multiconfig" then
        match (pySplitChar s (Char.ofNat 58))[1]? with
        | some name => .ok (some name)
        | Option.none => .error .indexError
      else
        .ok Option.none
  | _ => .error .attributeError

/-- Collect the multiconfig names of all targets, in target order. -/
def multiconfigNames : List KValue → Except PyErr (List String)
  | [] => .ok []
  | t :: ts =>
    match multiconfigName t with
    | .error e => .error e
    | .ok n =>
      match multiconfigNames ts with
      | .error e => .error e
      | .ok ns =>
        match n with
        | some name => .ok (name :: ns)
        | Option.none => .ok ns

/-- First-occurrence deduplication, modelling the `set(...)` around the
extracted names.  (A CPython `set` iterates in an implementation-defined
order; the claims about `get_multiconfig` leave the order unspecified,
so the embedding fixes first-occurrence order.) -/
def pyDedup : List String → List String
  | [] => []
  | x :: xs => x :: (pyDedup xs).filter (fun y => y ≠ x)

/-- `Context.get_multiconfig`: space-join the set of `<name>` fields of
the `multiconfig`-prefixed resolved targets.  Iterating a non-list
targets value (e.g. `None`) raises `TypeError`. -/
def getMulticonfig (procEnv : OsEnv) (ctx : Context) : Except PyErr String :=
  match getBitbakeTargets procEnv ctx with
  | KValue.list ts =>
      (match multiconfigNames ts with
       | .error e => .error e
       | .ok ns => .ok (pyJoin " " (pyDedup ns)))
  | _ => .error .typeError

end Context

/-! ## The Closure Engine (`load_configuration_file`)

The Include Resolver (`GlobalIncludes(filepath).get_config(repos=...)`
from `kas/includehandler.py`) is not under `src/`.  Modelled from the
spec (§4.1): an oracle `H` mapping the known repository-name → path map
to `(merged_config, missing_repo_names)`, idempotent given the same
inputs. -/

/-- The `repos=` argument the loop passes back to the resolver:
`\x7br: repo_dict[r].path for r in repo_dict\x7d`. -/
abbrev RepoPaths := List (String × KValue)

/-- An Include Resolver oracle. -/
abbrev Handler := RepoPaths → Config × List String

/-- How a run of `load_configuration_file` ends.  `includeError` models
`raise IncludeException(\x27Could not fetch all repos needed by
includes.\x27)` (the spec's `UnresolvableDependency`); `outOfFuel` means
the `while True:` loop was still running after the given number of
passes. -/
inductive LoadResult where
  | success (cfg : Config) (ctx : Context)
  | includeError (ctx : Context)
  | pyError (e : PyErr) (ctx : Context)
  | outOfFuel (ctx : Context)
  deriving DecidableEq

namespace LoadResult

/-- Whether the run raised `IncludeException`. -/
def isIncludeError : LoadResult → Bool
  | .includeError _ => true
  | _ => false

/-- Whether the run terminated successfully. -/
def isSuccess : LoadResult → Bool
  | .success _ _ => true
  | _ => false

/-- Whether the pass budget ran out with the loop still going. -/
def isOutOfFuel : LoadResult → Bool
  | .outOfFuel _ => true
  | _ => false

/-- The final context, whichever way the run ended. -/
def ctx : LoadResult → Context
  | .success _ c => c
  | .includeError c => c
  | .pyError _ c => c
  | .outOfFuel c => c

/-- On success, the final context holds exactly the last pass's merged
configuration with the creation-time overrides on top. -/
def mergedOnSuccess (ov : Config) : LoadResult → Prop
  | .success cfg c => c.config = dupdate cfg ov
  | _ => False

end LoadResult

/-- The observable trace of one `load_configuration_file` run. -/
structure LoadRun where
  /-- The `missing_repo_names` list of each executed pass, in order. -/
  passes : List (List String)
  /-- Every descriptor handed to `repos_fetch`/`repo_checkout`
  (`missing_repos`), over all passes, in order. -/
  fetched : List Repo
  result : LoadResult
  deriving DecidableEq

/-- The `while True:` loop of `load_configuration_file`, with an explicit
pass budget (`fuel`) standing in for unbounded iteration.  Faithful to
the source order: call the resolver, `set_config`, break on no missing
repos, raise on a stalled missing list (Python list equality), else
derive descriptors for the resolvable missing names, fetch and check
them out, rebuild `repo_paths` from the full repo dict, and loop. -/
def loadLoop (H : Handler) :
    Context → RepoPaths → List String → Nat → LoadRun
  | ctx, _, _, 0 => ⟨[], [], .outOfFuel ctx⟩
  | ctx, rp, missingOld, fuel + 1 =>
    -- (config, missing_repo_names) = handler.get_config(repos=repo_paths);
    -- context.set_config(config)
    if (H rp).2 = [] then
      ⟨[(H rp).2], [], .success (H rp).1 (ctx.setConfig (H rp).1)⟩
    else if (H rp).2 = missingOld then
      ⟨[(H rp).2], [], .includeError (ctx.setConfig (H rp).1)⟩
    else
      match (ctx.setConfig (H rp).1).getRepoDict with
      | .error e => ⟨[(H rp).2], [], .pyError e (ctx.setConfig (H rp).1)⟩
      | .ok (repoDict, ctx2) =>
        ⟨(H rp).2 ::
           (loadLoop H ctx2 (repoDict.map (fun p => (p.1, p.2.path))) (H rp).2 fuel).passes,
         ((H rp).2.filterMap (fun n => dlookup repoDict n)) ++
           (loadLoop H ctx2 (repoDict.map (fun p => (p.1, p.2.path))) (H rp).2 fuel).fetched,
         (loadLoop H ctx2 (repoDict.map (fun p => (p.1, p.2.path))) (H rp).2 fuel).result⟩

/-- `load_configuration_file(context, filepath)`: run the loop from an
empty `repo_paths` map and an empty `missing_repo_names_old`. -/
def loadConfigurationFile (H : Handler) (ctx : Context) (fuel : Nat) : LoadRun :=
  loadLoop H ctx [] [] fuel

/-! ## The Command/Macro pipeline (`libcmds.py`, `build.py`)

External side effects (filesystem writes, `os.chdir`, ssh-agent calls,
`repos_fetch`/`repo_checkout`, the bitbake invocation) are recorded as
an event trace. -/

/-- One observable external action of a pipeline command. -/
inductive Event where
  /-- `SetupHome` writing `.wgetrc` / `.netrc` into its temp dir. -/
  | writeTmpFile (path : String)
  /-- `os.chdir(context.kas_work_dir)`. -/
  | chdir (dir : String)
  /-- `os.mkdir(context.build_dir)` guarded by `os.path.exists`. -/
  | mkdirIfAbsent (dir : String)
  | sshSetupAgent
  | sshNoHostKeyCheck
  | sshCleanupAgent
  /-- `get_build_environ(context, context.build_dir)` (external). -/
  | computeBuildEnviron (dir : String)
  /-- A configuration file written by `WriteConfig`. -/
  | writeFile (path : String) (content : String)
  /-- One `repos_fetch(context, repos)` call. -/
  | fetch (repos : List Repo)
  /-- One `repo_checkout(context, repo)` call. -/
  | checkout (repo : Repo)
  /-- The bitbake invocation of `BuildCommand`. -/
  | bitbake (task : KValue) (targets : List KValue)
  deriving DecidableEq

/-- The generator `(layer for repo in repos for layer in repo.layers)`
of `_write_bblayers_conf`, flattened. -/
def allLayers : List Repo → List String
  | [] => []
  | r :: rs => r.layers ++ allLayers rs

/-- The content of `<build_dir>/conf/bblayers.conf` as
`WriteConfig.execute` writes it, plus the context as `get_repos` leaves
it. -/
def bblayersConf (ctx : Context) : Except PyErr (String × Context) :=
  match ctx.getBBLayersConfHeader with
  | .error e => .error e
  | .ok hdr =>
    match ctx.getRepos with
    | .error e => .error e
    | .ok (repos, ctx2) =>
      let layers := pySorted (allLayers repos)
      .ok (hdr ++ "BBLAYERS ?= \" \\\n    " ++
            pyJoin " \\\n    " layers ++ "\"\n",
           ctx2)

/-- The content of `<build_dir>/conf/local.conf` as
`WriteConfig.execute` writes it (the `str.format` calls expanded). -/
def localConf (procEnv : OsEnv) (ctx : Context) : Except PyErr String :=
  match ctx.getLocalConfHeader with
  | .error e => .error e
  | .ok hdr =>
  match ctx.getMulticonfig procEnv with
  | .error e => .error e
  | .ok mc =>
  .ok (hdr ++
       "MACHINE ?= \"" ++ KValue.pyStr (ctx.getMachine procEnv) ++ "\"\n" ++
       "DISTRO ?= \"" ++ KValue.pyStr (ctx.getDistro procEnv) ++ "\"\n" ++
       "BBMULTICONFIG ?= \"" ++ mc ++ "\"\n")

/-- The pipeline commands of `libcmds.py` (plus `BuildCommand` from
`build.py`).  `SetupHome` carries its `tempfile.mkdtemp()` result;
`BuildCommand.__init__` stores `args.task`, which its `execute` never
reads (it calls `context.get_bitbake_task()`), so no field is needed. -/
inductive Cmd where
  | setupHome (tmpDir : String)
  | setupDir
  | setupSSHAgent
  | cleanupSSHAgent
  | setupEnviron
  | writeConfig
  | reposFetch
  | reposCheckout
  | buildCommand
  deriving DecidableEq

/-- `str(command)`, as `Macro.run` uses it for skip-list matching. -/
def cmdName : Cmd → String
  | .setupHome _ => "setup_home"
  | .setupDir => "setup_dir"
  | .setupSSHAgent => "setup_ssh_agent"
  | .cleanupSSHAgent => "cleanup_ssh_agent"
  | .setupEnviron => "setup_environ"
  | .writeConfig => "write_config"
  | .reposFetch => "repos_fetch"
  | .reposCheckout => "repos_checkout"
  | .buildCommand => "build"

/-- `command.execute(context)`: the events it emits (in order, including
those preceding an exception) and either the resulting context or the
raised error.  `benv` stands for the external `get_build_environ`
result consumed by `SetupEnviron`. -/
def cmdExecute (benv : OsEnv) (procEnv : OsEnv) :
    Cmd → Context → List Event × Except PyErr Context
  | .setupHome tmpDir, ctx =>
      ([.writeTmpFile (tmpDir ++ "/.wgetrc"), .writeTmpFile (tmpDir ++ "/.netrc")],
       .ok (ctx.updateEnvironment [("HOME", tmpDir)]))
  | .setupDir, ctx =>
      ([.chdir ctx.workDir, .mkdirIfAbsent ctx.buildDir], .ok ctx)
  | .setupSSHAgent, ctx =>
      ([.sshSetupAgent, .sshNoHostKeyCheck], .ok ctx)
  | .cleanupSSHAgent, ctx =>
      ([.sshCleanupAgent], .ok ctx)
  | .setupEnviron, ctx =>
      ([.computeBuildEnviron ctx.buildDir], .ok (ctx.setBuildEnvironment benv))
  | .writeConfig, ctx =>
      (match bblayersConf ctx with
       | .error e => ([], .error e)
       | .ok (c1, ctx2) =>
         match localConf procEnv ctx2 with
         | .error e => ([.writeFile (ctx.buildDir ++ "/conf/bblayers.conf") c1], .error e)
         | .ok c2 =>
           ([.writeFile (ctx.buildDir ++ "/conf/bblayers.conf") c1,
             .writeFile (ctx2.buildDir ++ "/conf/local.conf") c2], .ok ctx2))
  | .reposFetch, ctx =>
      (match ctx.getRepos with
       | .error e => ([], .error e)
       | .ok (rs, ctx2) => ([.fetch rs], .ok ctx2))
  | .reposCheckout, ctx =>
      (match ctx.getRepos with
       | .error e => ([], .error e)
       | .ok (rs, ctx2) => (rs.map Event.checkout, .ok ctx2))
  | .buildCommand, ctx =>
      (match ctx.getEnvironment with
       | .error e => ([], .error e)
       | .ok env =>
         match dlookup env "PATH" with
         | Option.none => ([], .error .keyError)
         | some _ =>
           match ctx.getBitbakeTargets procEnv with
           | KValue.list ts =>
               ([.bitbake (ctx.getBitbakeTask procEnv) ts], .ok ctx)
           | _ => ([], .error .typeError))

/-- The outcome of `Macro.run`: the final context, the concatenated
event trace, and the first uncaught error, if any (the Macro catches
nothing; an error aborts the remaining commands). -/
structure MacroResult where
  ctx : Context
  events : List Event
  err : Option PyErr
  deriving DecidableEq

/-- `Macro.run(context, skip)`: run the commands in list order, omitting
every command whose name is in the skip list. -/
def macroRun (benv procEnv : OsEnv) :
    List Cmd → List String → Context → MacroResult
  | [], _, ctx => ⟨ctx, [], Option.none⟩
  | c :: cs, skip, ctx =>
    if skip.contains (cmdName c) then
      macroRun benv procEnv cs skip ctx
    else
      match cmdExecute benv procEnv c ctx with
      | (evs, .error e) => ⟨ctx, evs, some e⟩
      | (evs, .ok ctx2) =>
        let rest := macroRun benv procEnv cs skip ctx2
        ⟨rest.ctx, evs ++ rest.events, rest.err⟩

/-- The command list `Build.run` assembles (in order), with the SSH-agent
commands present exactly when `SSH_PRIVATE_KEY` is in the environment. -/
def kasBuildMacro (sshPrivateKey : Bool) (tmpDir : String) : List Cmd :=
  [Cmd.setupDir] ++
  (if sshPrivateKey then [Cmd.setupSSHAgent] else []) ++
  [Cmd.reposFetch, Cmd.reposCheckout, Cmd.setupEnviron, Cmd.writeConfig,
   Cmd.setupHome tmpDir, Cmd.buildCommand] ++
  (if sshPrivateKey then [Cmd.cleanupSSHAgent] else [])

/-- `Build.run` after argument parsing: `create_context` resolves the
configuration (the Closure Engine) and only on success is the assembled
macro run, so a resolution failure precedes every pipeline step. -/
def buildRun (H : Handler) (fuel : Nat) (benv procEnv : OsEnv) (ctx : Context)
    (cmds : List Cmd) (skip : List String) : LoadResult × List Event :=
  let run := loadConfigurationFile H ctx fuel
  match run.result with
  | .success _ ctxF => (run.result, (macroRun benv procEnv cmds skip ctxF).events)
  | r => (r, [])

/-! ## Helper lemmas -/

theorem dlookup_mapVal {α β : Type} (f : String → α → β) (d : List (String × α)) (k : String) :
    dlookup (d.map (fun p => (p.1, f p.1 p.2))) k = (dlookup d k).map (f k) := by
  induction d with
  | nil => rfl
  | cons p rest ih =>
    rw [List.map_cons, dlookup_cons, dlookup_cons]
    by_cases h : p.1 = k
    · subst h; simp
    · simp [h, ih]

theorem dkeys_mapVal {α β : Type} (f : String → α → β) (d : List (String × α)) :
    dkeys (d.map (fun p => (p.1, f p.1 p.2))) = dkeys d := by
  induction d with
  | nil => rfl
  | cons p rest ih =>
    rw [List.map_cons, dkeys_cons, dkeys_cons, ih]

/-- Re-assigning the value a key already has leaves a dict unchanged. -/
theorem dinsert_self {α : Type} {d : List (String × α)} {k : String} {v : α}
    (h : dlookup d k = some v) : dinsert d k v = d := by
  induction d with
  | nil => simp [dlookup] at h
  | cons p rest ih =>
    rw [dlookup_cons] at h
    by_cases hpk : p.1 = k
    · rw [if_pos hpk] at h
      have hv : v = p.2 := by injection h with h; exact h.symm
      show (if p.1 = k then (k, v) :: rest else _) = _
      rw [if_pos hpk, hv, ← hpk]
    · rw [if_neg hpk] at h
      show (if p.1 = k then _ else p :: dinsert rest k v) = _
      rw [if_neg hpk, ih h]

namespace Context

theorem mem_pyDedup {a : String} : ∀ {l : List String}, a ∈ pyDedup l ↔ a ∈ l := by
  intro l
  induction l with
  | nil => simp [pyDedup]
  | cons x xs ih =>
    simp only [pyDedup, List.mem_cons, List.mem_filter]
    by_cases hax : a = x
    · simp [hax]
    · simp [hax, ih]

theorem pyDedup_nodup : ∀ l : List String, (pyDedup l).Nodup := by
  intro l
  induction l with
  | nil => simp [pyDedup]
  | cons x xs ih =>
    rw [pyDedup, List.nodup_cons]
    constructor
    · intro hmem
      have := (List.mem_filter.mp hmem).2
      simp at this
    · exact List.Nodup.filter _ ih

theorem multiconfigNames_ok (ts : List String)
    (h : ∀ s ∈ ts, pyStartsWith s "multiconfig" → ((pySplitChar s (Char.ofNat 58))[1]?).isSome) :
    multiconfigNames (ts.map KValue.str) =
      .ok (ts.filterMap (fun s =>
        if pyStartsWith s "multiconfig" then (pySplitChar s (Char.ofNat 58))[1]?
        else Option.none)) := by
  induction ts with
  | nil => rfl
  | cons s rest ih =>
    have hrest : ∀ x ∈ rest,
        pyStartsWith x "multiconfig" → ((pySplitChar x (Char.ofNat 58))[1]?).isSome :=
      fun x hx => h x (List.mem_cons_of_mem _ hx)
    rw [List.map_cons, List.filterMap_cons, multiconfigNames, ih hrest]
    by_cases hs : pyStartsWith s "multiconfig"
    · have hsome := h s (List.mem_cons_self _ _) hs
      obtain ⟨name, hname⟩ := Option.isSome_iff_exists.mp hsome
      simp [multiconfigName, hs, hname]
    · simp [multiconfigName, hs]

/-- The shape of a successful `get_repo_dict`: only the stored
configuration changes; every other attribute of the context is kept. -/
theorem getRepoDict_frame {ctx ctx2 : Context} {rd : List (String × Repo)}
    (h : ctx.getRepoDict = .ok (rd, ctx2)) :
    ctx2.workDir = ctx.workDir ∧ ctx2.osEnviron = ctx.osEnviron ∧
    ctx2.environ = ctx.environ ∧ ctx2.buildEnviron = ctx.buildEnviron ∧
    ctx2.configOverride = ctx.configOverride ∧
    ctx2.configRepoPath = ctx.configRepoPath := by
  unfold getRepoDict at h
  cases hp : getRepoDictPure ctx.configRepoPath ctx.workDir ctx.config with
  | error e => rw [hp] at h; exact absurd h (by simp)
  | ok pr =>
    obtain ⟨rd', cfg⟩ := pr
    rw [hp] at h
    simp only [Except.ok.injEq, Prod.mk.injEq] at h
    rw [← h.2]
    exact ⟨rfl, rfl, rfl, rfl, rfl, rfl⟩

end Context

/-! ## Claim C4 — proxy/misc environment pass-through (code bug) -/

/-- **C4.** The claim states that every allow-listed proxy/misc variable
present in the process environment is returned by
`get_proxy_environ`/`get_misc_environ` mapped to its unmodified value.
The code instead evaluates `os_environ.get[var_name]` — subscripting the
bound method `get` — so both functions raise `TypeError` the moment any
allow-listed variable is present (and return the empty dict otherwise):
the claim describes the evident intent (and the functions' docstrings),
the code is a slip.  At `os_environ = \x7b"http_proxy": "http://proxy.example:3128"\x7d`
the claimed result would be the same singleton dict, but the code
raises. -/
theorem c4_proxy_misc_environ_code_bug :
    getProxyEnviron [("http_proxy", "http://proxy.example:3128")] = .error .typeError ∧
    getMiscEnviron [("SHELL", "/bin/bash")] = .error .typeError ∧
    specProxyEnviron [("http_proxy", "http://proxy.example:3128")] =
      [("http_proxy", "http://proxy.example:3128")] ∧
    specMiscEnviron [("SHELL", "/bin/bash")] = [("SHELL", "/bin/bash")] ∧
    getProxyEnviron [("http_proxy", "http://proxy.example:3128")] ≠
      .ok (specProxyEnviron [("http_proxy", "http://proxy.example:3128")]) ∧
    getProxyEnviron [("LANG", "C")] = .ok [] := by
  refine ⟨rfl, rfl, rfl, rfl, ?_, rfl⟩
  decide

/-! ## Claim C6 — target resolution -/

/-- A context whose configuration file sets `target: t`. -/
def ctxC6 : Context := { config := [("target", KValue.str "t")] }

/-- **C6 counterexample.** The claim says a set *and non-empty*
`KAS_TARGET` takes absolute precedence, its whitespace-separated tokens
being returned.  With `KAS_TARGET` set to the non-empty string `" "`
the token list is empty and the code falls back to the configured
target instead of returning the (empty) token list. -/
theorem c6_counterexample :
    dlookup [("KAS_TARGET", " ")] "KAS_TARGET" = some " " ∧ " " ≠ "" ∧
    kasTargetTokens [("KAS_TARGET", " ")] = [] ∧
    Context.getBitbakeTargets [("KAS_TARGET", " ")] ctxC6 = KValue.list [KValue.str "t"] ∧
    Context.getBitbakeTargets [("KAS_TARGET", " ")] ctxC6 ≠ KValue.list [] := by
  refine ⟨rfl, by decide, rfl, rfl, by decide⟩

/-- **C6 (amended).** Target resolution: if `KAS_TARGET` yields at least
one whitespace-separated token, those tokens are returned and take
absolute precedence over the configuration value; otherwise the
configuration `target` is returned — a missing key defaults to the
single-element list `["core-image-minimal"]`, a string is promoted to a
single-element list, and any other value (list, `None`, ...) is
returned unchanged. -/
theorem c6_targets_resolution (procEnv : OsEnv) (ctx : Context) :
    (kasTargetTokens procEnv ≠ [] →
       Context.getBitbakeTargets procEnv ctx =
         KValue.list ((kasTargetTokens procEnv).map KValue.str)) ∧
    (kasTargetTokens procEnv = [] → dlookup ctx.config "target" = Option.none →
       Context.getBitbakeTargets procEnv ctx =
         KValue.list [KValue.str "core-image-minimal"]) ∧
    (∀ s, kasTargetTokens procEnv = [] →
       dlookup ctx.config "target" = some (KValue.str s) →
       Context.getBitbakeTargets procEnv ctx = KValue.list [KValue.str s]) ∧
    (∀ v, kasTargetTokens procEnv = [] →
       dlookup ctx.config "target" = some v → (∀ s, v ≠ KValue.str s) →
       Context.getBitbakeTargets procEnv ctx = v) := by
  refine ⟨?_, ?_, ?_, ?_⟩
  · intro h
    simp [Context.getBitbakeTargets, h]
  · intro h hl
    simp [Context.getBitbakeTargets, h, cfgGet, hl]
  · intro s h hl
    simp [Context.getBitbakeTargets, h, cfgGet, hl]
  · intro v h hl hv
    cases v with
    | str s => exact absurd rfl (hv s)
    | _ => simp [Context.getBitbakeTargets, h, cfgGet, hl]

/-- **C6 witness.** Concrete instances of the amended resolution
behavior: a two-token `KAS_TARGET` wins; with no `KAS_TARGET` and no
configured target the default is `["core-image-minimal"]`. -/
theorem c6_targets_resolution_witness :
    Context.getBitbakeTargets [("KAS_TARGET", "a  b")] ctxC6 =
      KValue.list [KValue.str "a", KValue.str "b"] ∧
    Context.getBitbakeTargets [] ({} : Context) =
      KValue.list [KValue.str "core-image-minimal"] :=
  ⟨(c6_targets_resolution [("KAS_TARGET", "a  b")] ctxC6).1 (by decide),
   (c6_targets_resolution [] ({} : Context)).2.1 rfl rfl⟩

/-! ## Claim C7 — multiconfig extraction -/

/-- A context whose resolved targets are `["multiconfig:n"]` — a target
that is *not* of the form `multiconfig:<name>:<real-target>`. -/
def ctxC7 : Context := { config := [("target", KValue.list [KValue.str "multiconfig:n"])] }

/-- A context with a target that merely starts with `multiconfig`. -/
def ctxC7b : Context :=
  { config := [("target", KValue.list [KValue.str "multiconfigous:a:b"])] }

/-- A context with a colon-free `multiconfig` target. -/
def ctxC7c : Context := { config := [("target", KValue.list [KValue.str "multiconfig"])] }

/-- **C7 counterexample.** The claim says only targets of the exact form
`multiconfig:<name>:<real-target>` contribute a name.  The code keys on
`i.startswith(\x27multiconfig\x27)` and takes `i.split(\x27:\x27)[1]`:
the two-field target `multiconfig:n` contributes `n` (the claim says it
contributes nothing, so the result should be `""`), the target
`multiconfigous:a:b` contributes `a`, and the colon-free target
`multiconfig` raises `IndexError`. -/
theorem c7_counterexample :
    Context.getMulticonfig [] ctxC7 = .ok "n" ∧ "n" ≠ "" ∧
    Context.getMulticonfig [] ctxC7b = .ok "a" ∧
    Context.getMulticonfig [] ctxC7c = .error .indexError := by
  refine ⟨by decide, by decide, by decide, by decide⟩

/-- **C7 (amended).** `get_multiconfig` returns the space-separated join
of the distinct second `:`-fields of exactly those string targets that
*start with* `multiconfig` (not only those of the full
`multiconfig:<name>:<real-target>` form), deduplicated, order
unspecified (the embedding fixes first-occurrence order); a
`multiconfig`-prefixed target with no `:` at all makes it raise
`IndexError` instead. -/
theorem c7_multiconfig (procEnv : OsEnv) (ctx : Context) (ts : List String)
    (hts : Context.getBitbakeTargets procEnv ctx = KValue.list (ts.map KValue.str))
    (hcolon : ∀ s ∈ ts,
       pyStartsWith s "multiconfig" → ((pySplitChar s (Char.ofNat 58))[1]?).isSome) :
    Context.getMulticonfig procEnv ctx =
      .ok (pyJoin " "
        (Context.pyDedup (ts.filterMap (fun s =>
          if pyStartsWith s "multiconfig" then (pySplitChar s (Char.ofNat 58))[1]?
          else Option.none)))) ∧
    (Context.pyDedup (ts.filterMap (fun s =>
        if pyStartsWith s "multiconfig" then (pySplitChar s (Char.ofNat 58))[1]?
        else Option.none))).Nodup ∧
    (∀ n, n ∈ Context.pyDedup (ts.filterMap (fun s =>
        if pyStartsWith s "multiconfig" then (pySplitChar s (Char.ofNat 58))[1]?
        else Option.none)) ↔
      ∃ s ∈ ts, pyStartsWith s "multiconfig" ∧
        (pySplitChar s (Char.ofNat 58))[1]? = some n) := by
  refine ⟨?_, Context.pyDedup_nodup _, ?_⟩
  · simp only [Context.getMulticonfig, hts, Context.multiconfigNames_ok ts hcolon]
  · intro n
    rw [Context.mem_pyDedup, List.mem_filterMap]
    constructor
    · rintro ⟨s, hs, hif⟩
      by_cases hpre : pyStartsWith s "multiconfig"
      · rw [if_pos hpre] at hif
        exact ⟨s, hs, hpre, hif⟩
      · rw [if_neg hpre] at hif
        exact absurd hif (by simp)
    · rintro ⟨s, hs, hpre, hsnd⟩
      exact ⟨s, hs, by rw [if_pos hpre, hsnd]⟩

/-- The concrete context of the C7 witness. -/
def ctxC7w : Context :=
  { config := [("target", KValue.list
      [KValue.str "multiconfig:a:b", KValue.str "plain",
       KValue.str "multiconfig:a:z", KValue.str "multiconfig:c:d"])] }

/-- **C7 witness.** A concrete instance: targets
`["multiconfig:a:b", "plain", "multiconfig:a:z", "multiconfig:c:d"]`
yield the deduplicated name join `"a c"`. -/
theorem c7_multiconfig_witness :
    Context.getMulticonfig [] ctxC7w =
      .ok (pyJoin " " (Context.pyDedup ["a", "a", "c"])) :=
  (c7_multiconfig [] ctxC7w
    ["multiconfig:a:b", "plain", "multiconfig:a:z", "multiconfig:c:d"]
    (by decide) (by decide)).1

/-! ## Claim C10 — configuration overrides, including `None` -/

/-- **C10.** Overrides passed at context creation are merged into the
configuration map by `set_config` even when their value is `None`:
after every `set_config` the configuration holds the override value for
every override key, and an explicit `target=None` override makes
`get_bitbake_targets` return `None` (instead of the configured target or
the `core-image-minimal` default) whenever `KAS_TARGET` is unset. -/
theorem c10_override_none (ctx : Context) (cfg : Config) (procEnv : OsEnv)
    (hWF : DictWF ctx.configOverride) :
    (∀ k v, dlookup ctx.configOverride k = some v →
       dlookup (ctx.setConfig cfg).config k = some v) ∧
    (dlookup ctx.configOverride "target" = some KValue.none →
     dlookup procEnv "KAS_TARGET" = Option.none →
       Context.getBitbakeTargets procEnv (ctx.setConfig cfg) = KValue.none) := by
  have hkey : ∀ k v, dlookup ctx.configOverride k = some v →
      dlookup (ctx.setConfig cfg).config k = some v := by
    intro k v hv
    show dlookup (dupdate cfg ctx.configOverride) k = some v
    rw [dlookup_dupdate _ _ _ hWF, hv]
  refine ⟨hkey, ?_⟩
  intro htgt henv
  have htokens : kasTargetTokens procEnv = [] := by
    unfold kasTargetTokens
    rw [henv]
    rfl
  have := hkey "target" KValue.none htgt
  simp [Context.getBitbakeTargets, htokens, cfgGet, this]

/-- **C10 witness.** A concrete run: override `\x7btarget: None\x7d`, a
configuration file that sets `target: "x"`, no `KAS_TARGET` in the
process environment — `get_bitbake_targets` returns `None`. -/
theorem c10_override_none_witness :
    DictWF ([("target", KValue.none)] : Config) ∧
    Context.getBitbakeTargets []
      (Context.setConfig { configOverride := [("target", KValue.none)] }
        [("target", KValue.str "x")]) = KValue.none :=
  ⟨by simp [DictWF, dkeys],
   (c10_override_none { configOverride := [("target", KValue.none)] }
      [("target", KValue.str "x")] [] (by simp [DictWF, dkeys])).2 rfl rfl⟩

/-! ## Claim C3 — environment layering -/

theorem dlookup_envLift (e : OsEnv) (k : String) :
    dlookup (Context.envLift e) k = (dlookup e k).map KValue.str := by
  induction e with
  | nil => rfl
  | cons p rest ih =>
    rw [Context.envLift, List.map_cons, dlookup_cons, dlookup_cons]
    by_cases h : p.1 = k
    · simp [h]
    · simpa [h] using ih

theorem dkeys_envLift (e : OsEnv) : dkeys (Context.envLift e) = dkeys e := by
  induction e with
  | nil => rfl
  | cons p rest ih =>
    rw [Context.envLift, List.map_cons, dkeys_cons, dkeys_cons]
    rw [Context.envLift] at ih
    rw [ih]

theorem dlookup_resolveConfigEnv (osEnv : OsEnv) (d : List (String × KValue)) (k : String) :
    dlookup (Context.resolveConfigEnv osEnv d) k =
      (dlookup d k).map (fun v =>
        match dlookup osEnv k with
        | some s => KValue.str s
        | Option.none => v) := by
  induction d with
  | nil => rfl
  | cons p rest ih =>
    rw [Context.resolveConfigEnv, List.map_cons, dlookup_cons, dlookup_cons]
    by_cases h : p.1 = k
    · subst h; simp
    · simpa [h] using ih

theorem dkeys_resolveConfigEnv (osEnv : OsEnv) (d : List (String × KValue)) :
    dkeys (Context.resolveConfigEnv osEnv d) = dkeys d := by
  induction d with
  | nil => rfl
  | cons p rest ih =>
    rw [Context.resolveConfigEnv, List.map_cons, dkeys_cons, dkeys_cons]
    rw [Context.resolveConfigEnv] at ih
    rw [ih]

/-- **C3.** Environment layering, per variable name, lowest to highest
precedence: build-phase overlay, then configuration-declared variables
(each individually replaced by an identically-named process-environment
variable when present), then the explicit overlay set at context
creation.  The claim's examples are instantiated in the witness. -/
theorem c3_environment_layering (ctx : Context) (d : List (String × KValue))
    (hd : cfgGet ctx.config "env" (KValue.dict []) = KValue.dict d)
    (hWFd : DictWF d) (hWFe : DictWF ctx.environ) (name : String) :
    (ctx.getEnvironment).map (fun E => dlookup E name) =
      .ok (match dlookup ctx.environ name with
           | some s => some (KValue.str s)
           | Option.none =>
             match dlookup d name with
             | some v => some (match dlookup ctx.osEnviron name with
                               | some s => KValue.str s
                               | Option.none => v)
             | Option.none => (dlookup ctx.buildEnviron name).map KValue.str) := by
  have hWFe' : DictWF (Context.envLift ctx.environ) := by
    show (dkeys (Context.envLift ctx.environ)).Nodup
    rw [dkeys_envLift]
    exact hWFe
  have hWFd' : DictWF (Context.resolveConfigEnv ctx.osEnviron d) := by
    show (dkeys (Context.resolveConfigEnv ctx.osEnviron d)).Nodup
    rw [dkeys_resolveConfigEnv]
    exact hWFd
  unfold Context.getEnvironment
  rw [show Context.configEnvDict ctx = .ok d by
        unfold Context.configEnvDict; rw [hd]]
  simp only [Except.map]
  rw [dlookup_dupdate _ _ _ hWFe', dlookup_dupdate _ _ _ hWFd',
      dlookup_envLift, dlookup_envLift, dlookup_resolveConfigEnv]
  cases dlookup ctx.environ name <;>
    cases hdn : dlookup d name <;>
      cases dlookup ctx.osEnviron name <;>
        cases dlookup ctx.buildEnviron name <;> simp

/-- The context of the claim's first environment example: configuration
`env = \x7b"FOO": "cfg"\x7d` and a process environment with `FOO=shell`. -/
def ctxC3shell : Context :=
  { osEnviron := [("FOO", "shell")],
    config := [("env", KValue.dict [("FOO", KValue.str "cfg")])] }

/-- The second example: same configuration, no process-environment entry. -/
def ctxC3cfg : Context :=
  { osEnviron := [],
    config := [("env", KValue.dict [("FOO", KValue.str "cfg")])] }

/-- **C3 witness.** The claim's concrete examples: with `FOO=shell` in
the process environment `environment()["FOO"]` is `"shell"`; without it,
`"cfg"`. -/
theorem c3_environment_layering_witness :
    (ctxC3shell.getEnvironment).map (fun E => dlookup E "FOO") =
      .ok (some (KValue.str "shell")) ∧
    (ctxC3cfg.getEnvironment).map (fun E => dlookup E "FOO") =
      .ok (some (KValue.str "cfg")) := by
  constructor
  · have := c3_environment_layering ctxC3shell [("FOO", KValue.str "cfg")]
      rfl (by decide) (by decide) "FOO"
    simpa using this
  · have := c3_environment_layering ctxC3cfg [("FOO", KValue.str "cfg")]
      rfl (by decide) (by decide) "FOO"
    simpa using this

/-! ## Claim C9 — read accessors, mutators and the `get_repo_dict` write-back -/

/-- The configuration as `get_repo_dict`'s write-back leaves it: each
entry of a present `repos` dict normalized with `v or \x7b\x7d`. -/
def normalizeReposConfig (cfg : Config) : Config :=
  match dlookup cfg "repos" with
  | some (KValue.dict d) =>
      dinsert cfg "repos" (KValue.dict (d.map (fun p => (p.1, normRepoEntry p.2))))
  | _ => cfg

/-- No entry of the `repos` dict is falsy (the situation in which the
write-back is observable). -/
def reposAllTruthy (cfg : Config) : Prop :=
  match dlookup cfg "repos" with
  | some (KValue.dict d) => ∀ p ∈ d, p.2.pyTruthy
  | _ => True

/-- Evaluation of `getRepoDictPure` when `repos` holds a dict. -/
theorem getRepoDictPure_eq_dict (crp : KValue) (wd : String) (cfg : Config)
    (d : List (String × KValue)) (h : dlookup cfg "repos" = some (KValue.dict d)) :
    getRepoDictPure crp wd cfg =
      match buildRepos crp wd (d.map (fun p => (p.1, normRepoEntry p.2))) with
      | .error e => .error e
      | .ok rd =>
          .ok (rd, dinsert cfg "repos"
                (KValue.dict (d.map (fun p => (p.1, normRepoEntry p.2))))) := by
  unfold getRepoDictPure
  rw [h]

/-- Evaluation of `getRepoDictPure` when `repos` holds a string. -/
theorem getRepoDictPure_eq_str (crp : KValue) (wd : String) (cfg : Config)
    (s : String) (h : dlookup cfg "repos" = some (KValue.str s)) :
    getRepoDictPure crp wd cfg =
      if s = "" then .ok ([], cfg) else .error .typeError := by
  unfold getRepoDictPure
  rw [h]

/-- Evaluation of `getRepoDictPure` when `repos` holds a list. -/
theorem getRepoDictPure_eq_list (crp : KValue) (wd : String) (cfg : Config)
    (xs : List KValue) (h : dlookup cfg "repos" = some (KValue.list xs)) :
    getRepoDictPure crp wd cfg =
      if xs.isEmpty then .ok ([], cfg) else .error .typeError := by
  unfold getRepoDictPure
  rw [h]

/-- The configuration a successful `get_repo_dict` leaves behind is the
input with its `repos` entries normalized, and equals the input exactly
when no entry was falsy. -/
theorem getRepoDictPure_config {crp : KValue} {wd : String} {cfg : Config}
    {rd : List (String × Repo)} {cfg2 : Config}
    (h : getRepoDictPure crp wd cfg = .ok (rd, cfg2)) :
    cfg2 = normalizeReposConfig cfg ∧ (reposAllTruthy cfg → cfg2 = cfg) := by
  unfold normalizeReposConfig reposAllTruthy
  cases hrep : dlookup cfg "repos" with
  | none =>
    unfold getRepoDictPure at h
    rw [hrep] at h
    simp only [Except.ok.injEq, Prod.mk.injEq] at h
    exact ⟨h.2.symm, fun _ => h.2.symm⟩
  | some v =>
    cases v with
    | dict d =>
      rw [getRepoDictPure_eq_dict crp wd cfg d hrep] at h
      cases hbr : buildRepos crp wd (d.map (fun p => (p.1, normRepoEntry p.2))) with
      | error e' => rw [hbr] at h; exact absurd h (by simp)
      | ok rd' =>
        rw [hbr] at h
        simp only [Except.ok.injEq, Prod.mk.injEq] at h
        refine ⟨by rw [← h.2], ?_⟩
        intro htr
        have hmap : d.map (fun p => (p.1, normRepoEntry p.2)) = d := by
          have hcg : d.map (fun p => (p.1, normRepoEntry p.2)) = d.map id := by
            apply List.map_congr_left
            intro p hp
            simp [normRepoEntry, htr p hp]
          simpa using hcg
        rw [← h.2, hmap, dinsert_self hrep]
    | str s =>
      rw [getRepoDictPure_eq_str crp wd cfg s hrep] at h
      by_cases hs : s = ""
      · rw [if_pos hs] at h
        simp only [Except.ok.injEq, Prod.mk.injEq] at h
        exact ⟨h.2.symm, fun _ => h.2.symm⟩
      · rw [if_neg hs] at h
        exact absurd h (by simp)
    | list xs =>
      rw [getRepoDictPure_eq_list crp wd cfg xs hrep] at h
      by_cases hx : xs.isEmpty
      · rw [if_pos hx] at h
        simp only [Except.ok.injEq, Prod.mk.injEq] at h
        exact ⟨h.2.symm, fun _ => h.2.symm⟩
      · rw [if_neg hx] at h
        exact absurd h (by simp)
    | none =>
      unfold getRepoDictPure at h
      rw [hrep] at h
      exact absurd h (by simp)
    | int n =>
      unfold getRepoDictPure at h
      rw [hrep] at h
      exact absurd h (by simp)

/-- The context of the C9 counterexample: a repository declared as
`self:` with no attributes (the YAML value `None`). -/
def ctxC9 : Context :=
  { configRepoPath := KValue.str "/cfg", workDir := "/w",
    config := [("repos", KValue.dict [("self", KValue.none)])] }

/-- What `get_repo_dict` turns `ctxC9` into: the `None` entry is
replaced by an empty dict inside the stored configuration. -/
def ctxC9after : Context :=
  { ctxC9 with config := [("repos", KValue.dict [("self", KValue.dict [])])] }

/-- The descriptor `get_repo_dict` builds for the `self` repository. -/
def repoC9 : Repo :=
  { url := KValue.str "/cfg", path := KValue.str "/cfg", layers := [],
    gitOperations := false }

/-- **C9 counterexample.** The claim says no read accessor modifies any
context state.  `get_repo_dict` executes
`repo_config_dict[repo] = repo_config_dict[repo] or \x7b\x7d` on the dict
aliased from `self._config["repos"]`: on a context whose `repos` map
holds a `None` entry, the call changes the stored configuration. -/
theorem c9_counterexample :
    Context.getRepoDict ctxC9 = .ok ([("self", repoC9)], ctxC9after) ∧
    ctxC9after.config ≠ ctxC9.config := by
  refine ⟨by decide, by decide⟩

/-- **C9 (amended).** `update_environment` and `set_build_environment`
are mutators exactly as claimed: the former only merges entries into the
explicit overlay, the latter only replaces the build-phase overlay, and
neither touches the merged configuration.  But `get_repo_dict` (and
hence `get_repos`) is not state-free: a successful call leaves every
context attribute unchanged except the merged configuration, whose
`repos` entries are normalized with `v or \x7b\x7d` — observable exactly
when some entry is falsy; when every entry is truthy the context is
unchanged. -/
theorem c9_state_mutation (ctx : Context) (e : OsEnv) :
    ((ctx.updateEnvironment e).config = ctx.config ∧
     (ctx.updateEnvironment e).configOverride = ctx.configOverride ∧
     (ctx.updateEnvironment e).buildEnviron = ctx.buildEnviron ∧
     (ctx.updateEnvironment e).osEnviron = ctx.osEnviron ∧
     (ctx.updateEnvironment e).configRepoPath = ctx.configRepoPath ∧
     (ctx.updateEnvironment e).workDir = ctx.workDir ∧
     (ctx.updateEnvironment e).environ = dupdate ctx.environ e) ∧
    ((ctx.setBuildEnvironment e).config = ctx.config ∧
     (ctx.setBuildEnvironment e).configOverride = ctx.configOverride ∧
     (ctx.setBuildEnvironment e).environ = ctx.environ ∧
     (ctx.setBuildEnvironment e).osEnviron = ctx.osEnviron ∧
     (ctx.setBuildEnvironment e).configRepoPath = ctx.configRepoPath ∧
     (ctx.setBuildEnvironment e).workDir = ctx.workDir ∧
     (ctx.setBuildEnvironment e).buildEnviron = e) ∧
    (∀ rd ctx2, ctx.getRepoDict = .ok (rd, ctx2) →
       ctx2.workDir = ctx.workDir ∧ ctx2.osEnviron = ctx.osEnviron ∧
       ctx2.environ = ctx.environ ∧ ctx2.buildEnviron = ctx.buildEnviron ∧
       ctx2.configOverride = ctx.configOverride ∧
       ctx2.configRepoPath = ctx.configRepoPath ∧
       ctx2.config = normalizeReposConfig ctx.config ∧
       (reposAllTruthy ctx.config → ctx2 = ctx)) := by
  refine ⟨⟨rfl, rfl, rfl, rfl, rfl, rfl, rfl⟩, ⟨rfl, rfl, rfl, rfl, rfl, rfl, rfl⟩, ?_⟩
  intro rd ctx2 h
  obtain ⟨hw, ho, he, hb, hov, hcrp⟩ := Context.getRepoDict_frame h
  refine ⟨hw, ho, he, hb, hov, hcrp, ?_⟩
  have hpure : ∃ cfg2, getRepoDictPure ctx.configRepoPath ctx.workDir ctx.config =
      .ok (rd, cfg2) ∧ ctx2.config = cfg2 := by
    unfold Context.getRepoDict at h
    cases hp : getRepoDictPure ctx.configRepoPath ctx.workDir ctx.config with
    | error e' => rw [hp] at h; exact absurd h (by simp)
    | ok pr =>
      obtain ⟨rd', cfg2⟩ := pr
      rw [hp] at h
      simp only [Except.ok.injEq, Prod.mk.injEq] at h
      exact ⟨cfg2, by rw [h.1], by rw [← h.2]⟩
  obtain ⟨cfg2, hp, hc⟩ := hpure
  obtain ⟨h1, h2⟩ := getRepoDictPure_config hp
  refine ⟨by rw [hc, h1], ?_⟩
  intro htr
  have := h2 htr
  have hcc : ctx2.config = ctx.config := by rw [hc, this]
  calc ctx2 = { ctx2 with config := ctx2.config } := rfl
    _ = { ctx with config := ctx.config } := by
          rw [hw, ho, he, hb, hov, hcrp, hcc]
    _ = ctx := rfl

/-- A context whose single `repos` entry is truthy (a non-empty dict). -/
def ctxC9t : Context :=
  { configRepoPath := KValue.str "/cfg", workDir := "/w",
    config := [("repos", KValue.dict
      [("self", KValue.dict [("url", KValue.str "u"), ("path", KValue.str "/p")])])] }

/-- The repo dict `get_repo_dict` builds for `ctxC9t`. -/
def rdC9t : List (String × Repo) :=
  [("self", { url := KValue.str "u", path := KValue.str "/p", layers := [] })]

/-- **C9 witness.** On `ctxC9` (falsy `repos` entry) the configuration
stored after `get_repo_dict` is the normalized one; on `ctxC9t` (truthy
entry) the context comes back unchanged; `update_environment` leaves the
merged configuration alone. -/
theorem c9_state_mutation_witness :
    (ctxC9.updateEnvironment [("A", "1")]).config = ctxC9.config ∧
    ctxC9after.config = normalizeReposConfig ctxC9.config ∧
    ctxC9t = ctxC9t :=
  ⟨(c9_state_mutation ctxC9 [("A", "1")]).1.1,
   ((c9_state_mutation ctxC9 [("A", "1")]).2.2 [("self", repoC9)] ctxC9after
      (by decide)).2.2.2.2.2.2.1,
   ((c9_state_mutation ctxC9t []).2.2 rdC9t ctxC9t (by decide)).2.2.2.2.2.2.2 (by
      show ∀ p ∈ [("self", KValue.dict
          [("url", KValue.str "u"), ("path", KValue.str "/p")])], p.2.pyTruthy
      decide)⟩

/-! ## Claim C5 — the generated configuration files -/

theorem sappend_assoc (a b c : String) : a ++ b ++ c = a ++ (b ++ c) := by
  apply String.ext
  simp [String.data_append, List.append_assoc]

/-- The layer block of `bblayers.conf` as the claim describes it: every
layer on its own backslash-continued line indented four spaces (the
closing quote is appended by the caller; with no layers the line is just
the indent, matching the source's write of the four spaces up front). -/
def specLayerLines : List String → String
  | [] => "    "
  | [l] => "    " ++ l
  | l :: ls => "    " ++ l ++ " \\\n" ++ specLayerLines ls

/-- The `bblayers.conf` text as the claim describes it (amended: the
sorted layer list keeps duplicates): header block, the line
`BBLAYERS ?= " \`, the indented layer lines, closed by `"`. -/
def specBBLayersText (hdr : String) (layers : List String) : String :=
  hdr ++ "BBLAYERS ?= \" \\\n" ++ specLayerLines layers ++ "\"\n"

/-- The `local.conf` text as the claim describes it: header block, then
exactly the three assignment lines. -/
def specLocalConfText (hdr machine distro mc : String) : String :=
  hdr ++ "MACHINE ?= \"" ++ machine ++ "\"\n" ++
    "DISTRO ?= \"" ++ distro ++ "\"\n" ++
    "BBMULTICONFIG ?= \"" ++ mc ++ "\"\n"

/-- The four-space-then-join rendering the source writes equals the
line-by-line rendering the spec describes. -/
theorem indent_join_eq : ∀ l : List String,
    "    " ++ pyJoin " \\\n    " l = specLayerLines l
  | [] => by
      show "    " ++ "" = "    "
      rw [String.append_empty]
  | [x] => rfl
  | x :: y :: ys => by
      have ihy := indent_join_eq (y :: ys)
      show "    " ++ (x ++ " \\\n    " ++ pyJoin " \\\n    " (y :: ys)) =
           "    " ++ x ++ " \\\n" ++ specLayerLines (y :: ys)
      rw [← ihy]
      rw [show (" \\\n    " : String) = " \\\n" ++ "    " from rfl]
      simp only [sappend_assoc]

/-- The exact text `_write_bblayers_conf` produces, re-expressed in the
claim's line-by-line shape (duplicates kept). -/
theorem bblayersText_eq_spec (hdr : String) (layers : List String) :
    hdr ++ "BBLAYERS ?= \" \\\n    " ++ pyJoin " \\\n    " layers ++ "\"\n" =
      specBBLayersText hdr layers := by
  unfold specBBLayersText
  rw [← indent_join_eq layers]
  rw [show ("BBLAYERS ?= \" \\\n    " : String) = "BBLAYERS ?= \" \\\n" ++ "    " from rfl]
  simp only [sappend_assoc]

/-- Frame of a successful `get_repos`: the returned context differs from
the input at most in its stored configuration. -/
theorem Context.getRepos_frame {ctx ctx2 : Context} {rs : List Repo}
    (h : ctx.getRepos = .ok (rs, ctx2)) :
    ctx2.workDir = ctx.workDir ∧ ctx2.configOverride = ctx.configOverride ∧
    ctx2.configRepoPath = ctx.configRepoPath := by
  unfold Context.getRepos at h
  cases hrd : ctx.getRepoDict with
  | error e => rw [hrd] at h; exact absurd h (by simp)
  | ok pr =>
    obtain ⟨rd, c2⟩ := pr
    rw [hrd] at h
    simp only [Except.ok.injEq, Prod.mk.injEq] at h
    obtain ⟨hw, -, -, -, hov, hcrp⟩ := Context.getRepoDict_frame hrd
    rw [← h.2]
    exact ⟨hw, hov, hcrp⟩

/-- The duplicated-layer context of the C5 counterexample: two
repositories that both contribute the layer path `l`. -/
def ctxC5 : Context :=
  { workDir := "/w",
    config := [("repos", KValue.dict
      [("r1", KValue.dict [("url", KValue.str "u1"),
                           ("layers", KValue.dict [("l", KValue.str "")])]),
       ("r2", KValue.dict [("url", KValue.str "u2"),
                           ("layers", KValue.dict [("l", KValue.str "")])])])] }

/-- **C5 counterexample.** The claim says the layer paths are written
"sorted and deduplicated".  `sorted(...)` keeps duplicates: with two
repositories both contributing layer `l`, the written block lists `l`
twice, which differs from the deduplicated rendering the claim
describes. -/
theorem c5_counterexample :
    (bblayersConf ctxC5).map Prod.fst = .ok (specBBLayersText "" ["l", "l"]) ∧
    specBBLayersText "" ["l", "l"] = "BBLAYERS ?= \" \\\n    l \\\n    l\"\n" ∧
    specBBLayersText "" ["l", "l"] ≠ specBBLayersText "" ["l"] := by
  refine ⟨by decide, by decide, by decide⟩

/-- `cmdExecute` on `WriteConfig`, restated as a plain match (definitional). -/
theorem cmdExecute_writeConfig (benv procEnv : OsEnv) (ctx : Context) :
    cmdExecute benv procEnv Cmd.writeConfig ctx =
      (match bblayersConf ctx with
       | .error e => ([], .error e)
       | .ok (c1, ctx2) =>
         match localConf procEnv ctx2 with
         | .error e =>
             ([Event.writeFile (ctx.buildDir ++ "/conf/bblayers.conf") c1], .error e)
         | .ok c2 =>
             ([Event.writeFile (ctx.buildDir ++ "/conf/bblayers.conf") c1,
               Event.writeFile (ctx2.buildDir ++ "/conf/local.conf") c2],
              .ok ctx2)) := rfl

/-- **C5 (amended).** `WriteConfig.execute` writes exactly two files
under `<build_dir>/conf/`: `bblayers.conf` holding the
`bblayers_conf_header` block, the literal line `BBLAYERS ?= " \`, each
layer path contributed by the context's repositories — sorted, with
duplicates across repositories retained — on its own backslash-continued
line indented four spaces, closed by `"`; and `local.conf` holding the
`local_conf_header` block followed by exactly the `MACHINE`, `DISTRO`
and `BBMULTICONFIG` assignment lines. -/
theorem c5_write_config (benv procEnv : OsEnv) (ctx ctx2 : Context)
    (hdrB hdrL mc : String) (repos : List Repo)
    (h1 : ctx.getBBLayersConfHeader = .ok hdrB)
    (h2 : ctx.getRepos = .ok (repos, ctx2))
    (h3 : ctx2.getLocalConfHeader = .ok hdrL)
    (h4 : ctx2.getMulticonfig procEnv = .ok mc) :
    cmdExecute benv procEnv Cmd.writeConfig ctx =
      ([Event.writeFile (ctx.buildDir ++ "/conf/bblayers.conf")
          (specBBLayersText hdrB (pySorted (allLayers repos))),
        Event.writeFile (ctx.buildDir ++ "/conf/local.conf")
          (specLocalConfText hdrL (KValue.pyStr (ctx2.getMachine procEnv))
            (KValue.pyStr (ctx2.getDistro procEnv)) mc)],
       .ok ctx2) := by
  have hbb : bblayersConf ctx =
      .ok (hdrB ++ "BBLAYERS ?= \" \\\n    " ++
            pyJoin " \\\n    " (pySorted (allLayers repos)) ++ "\"\n", ctx2) := by
    unfold bblayersConf
    rw [h1, h2]
  rw [bblayersText_eq_spec] at hbb
  have hlc : localConf procEnv ctx2 =
      .ok (specLocalConfText hdrL (KValue.pyStr (ctx2.getMachine procEnv))
            (KValue.pyStr (ctx2.getDistro procEnv)) mc) := by
    unfold localConf
    rw [h3, h4]
    rfl
  have hbd : ctx2.buildDir = ctx.buildDir := by
    unfold Context.buildDir
    rw [(Context.getRepos_frame h2).1]
  rw [cmdExecute_writeConfig, hbb]
  show (match localConf procEnv ctx2 with
        | Except.error e =>
            (([Event.writeFile (ctx.buildDir ++ "/conf/bblayers.conf")
                (specBBLayersText hdrB (pySorted (allLayers repos)))],
              Except.error e) : List Event × Except PyErr Context)
        | Except.ok c2 =>
            ([Event.writeFile (ctx.buildDir ++ "/conf/bblayers.conf")
                (specBBLayersText hdrB (pySorted (allLayers repos))),
              Event.writeFile (ctx2.buildDir ++ "/conf/local.conf") c2],
             Except.ok ctx2)) = _
  rw [hlc, hbd]

/-- The context `get_repos` leaves behind for `ctxC5` (every repo entry
is a truthy dict, so nothing observable changes). -/
def reposC5 : List Repo :=
  [{ url := KValue.str "u1", path := KValue.str "/w/r1", layers := ["l"] },
   { url := KValue.str "u2", path := KValue.str "/w/r2", layers := ["l"] }]

/-- **C5 witness.** The amended description instantiated on `ctxC5`:
exactly the two files, with the duplicated layer line and the default
machine/distro values. -/
theorem c5_write_config_witness :
    cmdExecute [] [] Cmd.writeConfig ctxC5 =
      ([Event.writeFile "/w/build/conf/bblayers.conf"
          (specBBLayersText "" (pySorted (allLayers reposC5))),
        Event.writeFile "/w/build/conf/local.conf"
          (specLocalConfText "" "qemu" "poky" "")],
       .ok ctxC5) :=
  c5_write_config [] [] ctxC5 ctxC5 "" "" "" reposC5
    (by decide) (by decide) (by decide) (by decide)

/-! ## Claim C8 — `Macro.run` and the skip list -/

/-- The cons unfolding of `macroRun`. -/
theorem macroRun_cons (benv procEnv : OsEnv) (c : Cmd) (cs : List Cmd)
    (skip : List String) (ctx : Context) :
    macroRun benv procEnv (c :: cs) skip ctx =
      if skip.contains (cmdName c) then
        macroRun benv procEnv cs skip ctx
      else
        match cmdExecute benv procEnv c ctx with
        | (evs, .error e) => ⟨ctx, evs, some e⟩
        | (evs, .ok ctx2) =>
          let rest := macroRun benv procEnv cs skip ctx2
          ⟨rest.ctx, evs ++ rest.events, rest.err⟩ := rfl

/-- The only command whose `str()` is `repos_fetch` is `ReposFetch`. -/
theorem cmdName_eq_reposFetch {c : Cmd} (h : cmdName c = "repos_fetch") :
    c = Cmd.reposFetch := by
  cases c with
  | reposFetch => rfl
  | setupHome tmp => simp [cmdName] at h
  | setupDir => simp [cmdName] at h
  | setupSSHAgent => simp [cmdName] at h
  | cleanupSSHAgent => simp [cmdName] at h
  | setupEnviron => simp [cmdName] at h
  | writeConfig => simp [cmdName] at h
  | reposCheckout => simp [cmdName] at h
  | buildCommand => simp [cmdName] at h

/-- No command other than `ReposFetch` ever emits a `repos_fetch` call. -/
theorem fetch_not_mem_cmdExecute (benv procEnv : OsEnv) (c : Cmd) (ctx : Context)
    (hc : c ≠ Cmd.reposFetch) (rs : List Repo) :
    Event.fetch rs ∉ (cmdExecute benv procEnv c ctx).1 := by
  cases c with
  | reposFetch => exact absurd rfl hc
  | setupHome tmp => simp [cmdExecute]
  | setupDir => simp [cmdExecute]
  | setupSSHAgent => simp [cmdExecute]
  | cleanupSSHAgent => simp [cmdExecute]
  | setupEnviron => simp [cmdExecute]
  | writeConfig =>
    rw [cmdExecute_writeConfig]
    cases hb : bblayersConf ctx with
    | error e => simp [hb]
    | ok pr =>
      obtain ⟨c1, ctx2⟩ := pr
      cases hl : localConf procEnv ctx2 with
      | error e => simp [hb, hl]
      | ok c2 => simp [hb, hl]
  | reposCheckout =>
    cases hr : ctx.getRepos with
    | error e => simp [cmdExecute, hr]
    | ok pr =>
      obtain ⟨rl, ctx2⟩ := pr
      simp [cmdExecute, hr]
  | buildCommand =>
    cases he : ctx.getEnvironment with
    | error e => simp [cmdExecute, he]
    | ok env =>
      cases hp : dlookup env "PATH" with
      | none => simp [cmdExecute, he, hp]
      | some s =>
        cases ht : ctx.getBitbakeTargets procEnv with
        | list ts => simp [cmdExecute, he, hp, ht]
        | none => simp [cmdExecute, he, hp, ht]
        | str s2 => simp [cmdExecute, he, hp, ht]
        | int n => simp [cmdExecute, he, hp, ht]
        | dict d => simp [cmdExecute, he, hp, ht]

/-- **C8.** `Macro.run` executes exactly the commands whose name is not
in the skip list, in list order — a run with a skip list equals the run
of the filtered command list, so a skipped command contributes no state
change and no event — and when `repos_fetch` is skipped no
`repos_fetch(...)` call is ever made while every other listed command
still executes. -/
theorem c8_macro_run (benv procEnv : OsEnv) (cmds : List Cmd) (skip : List String)
    (ctx : Context) :
    macroRun benv procEnv cmds skip ctx =
      macroRun benv procEnv (cmds.filter (fun c => !skip.contains (cmdName c))) [] ctx ∧
    (skip.contains "repos_fetch" →
      ∀ rs, Event.fetch rs ∉ (macroRun benv procEnv cmds skip ctx).events) := by
  constructor
  · induction cmds generalizing ctx with
    | nil => rfl
    | cons c cs ih =>
      rw [macroRun_cons, List.filter_cons]
      by_cases hskip : skip.contains (cmdName c)
      · rw [if_pos hskip]
        simp only [hskip, Bool.not_true]
        rw [if_neg (by simp)]
        exact ih ctx
      · rw [if_neg hskip]
        have hsf : skip.contains (cmdName c) = false := eq_false_of_ne_true hskip
        simp only [hsf, Bool.not_false]
        rw [if_pos trivial, macroRun_cons]
        rw [if_neg (by simp : ¬ (List.contains [] (cmdName c) = true))]
        cases hE : cmdExecute benv procEnv c ctx with
        | mk evs r =>
          cases r with
          | error e => rfl
          | ok ctx2 => simp only [ih ctx2]
  · intro hsk rs
    induction cmds generalizing ctx with
    | nil => simp [macroRun]
    | cons c cs ih =>
      rw [macroRun_cons]
      by_cases hskip : skip.contains (cmdName c)
      · rw [if_pos hskip]
        exact ih ctx
      · rw [if_neg hskip]
        have hc : c ≠ Cmd.reposFetch := by
          intro hceq
          exact hskip (by rw [hceq]; exact hsk)
        have hnm := fetch_not_mem_cmdExecute benv procEnv c ctx hc rs
        cases hE : cmdExecute benv procEnv c ctx with
        | mk evs r =>
          rw [hE] at hnm
          cases r with
          | error e => exact hnm
          | ok ctx2 =>
            show Event.fetch rs ∉ evs ++ (macroRun benv procEnv cs skip ctx2).events
            rw [List.mem_append]
            rintro (hin | hin)
            · exact hnm hin
            · exact ih ctx2 hin

/-- A context for the C8 witness run (one fetchable repository, `PATH`
available for the build step). -/
def ctxC8 : Context :=
  { workDir := "/w",
    config := [("repos", KValue.dict
      [("r1", KValue.dict [("url", KValue.str "u1")])])] }

/-- **C8 witness.** On the build plugin's own macro with
`skip = ["repos_fetch"]`, no `repos_fetch` call is emitted. -/
theorem c8_macro_run_witness :
    (["repos_fetch"] : List String).contains "repos_fetch" = true ∧
    Event.fetch [] ∉
      (macroRun [("PATH", "/bin")] [] (kasBuildMacro true "/tmp/kas")
        ["repos_fetch"] ctxC8).events :=
  ⟨by decide,
   (c8_macro_run [("PATH", "/bin")] [] (kasBuildMacro true "/tmp/kas")
      ["repos_fetch"] ctxC8).2 (by decide) []⟩

/-! ## Claim C1 — the stall check and successful termination -/

/-- The successor-fuel unfolding of `loadLoop`. -/
theorem loadLoop_succ (H : Handler) (ctx : Context) (rp : RepoPaths)
    (missingOld : List String) (fuel : Nat) :
    loadLoop H ctx rp missingOld (fuel + 1) =
      (if (H rp).2 = [] then
        ⟨[(H rp).2], [], .success (H rp).1 (ctx.setConfig (H rp).1)⟩
      else if (H rp).2 = missingOld then
        ⟨[(H rp).2], [], .includeError (ctx.setConfig (H rp).1)⟩
      else
        match (ctx.setConfig (H rp).1).getRepoDict with
        | .error e => ⟨[(H rp).2], [], .pyError e (ctx.setConfig (H rp).1)⟩
        | .ok (repoDict, ctx2) =>
          ⟨(H rp).2 ::
             (loadLoop H ctx2 (repoDict.map (fun p => (p.1, p.2.path))) (H rp).2 fuel).passes,
           ((H rp).2.filterMap (fun n => dlookup repoDict n)) ++
             (loadLoop H ctx2 (repoDict.map (fun p => (p.1, p.2.path))) (H rp).2 fuel).fetched,
           (loadLoop H ctx2 (repoDict.map (fun p => (p.1, p.2.path))) (H rp).2 fuel).result⟩) := by
  rfl

/-- If two consecutive executed passes saw the same `missing_repo_names`
list, the run ends in `IncludeException`. -/
theorem loadLoop_stall (H : Handler) :
    ∀ (fuel : Nat) (ctx : Context) (rp : RepoPaths) (mOld : List String)
      (k : Nat) (m : List String),
      (loadLoop H ctx rp mOld fuel).passes[k]? = some m →
      (loadLoop H ctx rp mOld fuel).passes[k + 1]? = some m →
      (loadLoop H ctx rp mOld fuel).result.isIncludeError = true := by
  intro fuel
  induction fuel with
  | zero =>
    intro ctx rp mOld k m h1 _
    exact absurd h1 (by simp [loadLoop])
  | succ f ih =>
    intro ctx rp mOld k m h1 h2
    rw [loadLoop_succ] at h1 h2 ⊢
    by_cases hm0 : (H rp).2 = []
    · rw [if_pos hm0] at h1 h2
      rcases k with _ | k
      · simp at h2
      · simp at h1
    · rw [if_neg hm0] at h1 h2 ⊢
      by_cases hmeq : (H rp).2 = mOld
      · rw [if_pos hmeq] at h1 h2
        rcases k with _ | k
        · simp at h2
        · simp at h1
      · rw [if_neg hmeq] at h1 h2 ⊢
        cases hrd : (ctx.setConfig (H rp).1).getRepoDict with
        | error e =>
          rw [hrd] at h1 h2
          rcases k with _ | k
          · simp at h2
          · simp at h1
        | ok pr =>
          obtain ⟨repoDict, ctx2⟩ := pr
          rw [hrd] at h1 h2
          rcases k with _ | k
          · simp only [List.getElem?_cons_zero] at h1
            injection h1 with h1
            subst h1
            simp only [List.getElem?_cons_succ] at h2
            simp only []
            cases f with
            | zero => exact absurd h2 (by simp [loadLoop])
            | succ f2 =>
              rw [loadLoop_succ] at h2 ⊢
              by_cases hz : (H (repoDict.map (fun p => (p.1, p.2.path)))).2 = []
              · rw [if_pos hz] at h2
                simp only [List.getElem?_cons_zero] at h2
                injection h2 with h2
                rw [h2] at hz
                exact absurd hz hm0
              · rw [if_neg hz] at h2 ⊢
                by_cases hz2 :
                    (H (repoDict.map (fun p => (p.1, p.2.path)))).2 = (H rp).2
                · rw [if_pos hz2]
                  rfl
                · rw [if_neg hz2] at h2 ⊢
                  cases hrd2 : (ctx2.setConfig
                      (H (repoDict.map (fun p => (p.1, p.2.path)))).1).getRepoDict with
                  | error e =>
                    rw [hrd2] at h2
                    simp only [List.getElem?_cons_zero] at h2
                    injection h2 with h2
                    exact absurd h2 hz2
                  | ok pr2 =>
                    obtain ⟨rd2, ctx3⟩ := pr2
                    rw [hrd2] at h2
                    simp only [List.getElem?_cons_zero] at h2
                    injection h2 with h2
                    exact absurd h2 hz2
          · simp only [List.getElem?_cons_succ] at h1 h2
            simp only []
            exact ih ctx2 (repoDict.map (fun p => (p.1, p.2.path))) (H rp).2 k m h1 h2

/-- An executed pass with an empty `missing_repo_names` list ends the
run successfully, the final context holding that pass's merged
configuration (with the creation-time overrides on top). -/
theorem loadLoop_empty_success (H : Handler) :
    ∀ (fuel : Nat) (ctx : Context) (rp : RepoPaths) (mOld : List String) (k : Nat),
      (loadLoop H ctx rp mOld fuel).passes[k]? = some [] →
      (loadLoop H ctx rp mOld fuel).result.mergedOnSuccess ctx.configOverride := by
  intro fuel
  induction fuel with
  | zero =>
    intro ctx rp mOld k h
    exact absurd h (by simp [loadLoop])
  | succ f ih =>
    intro ctx rp mOld k h
    rw [loadLoop_succ] at h ⊢
    by_cases hm0 : (H rp).2 = []
    · rw [if_pos hm0]
      exact rfl
    · rw [if_neg hm0] at h ⊢
      by_cases hmeq : (H rp).2 = mOld
      · rw [if_pos hmeq] at h
        rcases k with _ | k
        · simp only [List.getElem?_cons_zero] at h
          injection h with h
          exact absurd h hm0
        · simp at h
      · rw [if_neg hmeq] at h ⊢
        cases hrd : (ctx.setConfig (H rp).1).getRepoDict with
        | error e =>
          rw [hrd] at h
          rcases k with _ | k
          · simp only [List.getElem?_cons_zero] at h
            injection h with h
            exact absurd h hm0
          · simp at h
        | ok pr =>
          obtain ⟨repoDict, ctx2⟩ := pr
          rw [hrd] at h
          rcases k with _ | k
          · simp only [List.getElem?_cons_zero] at h
            injection h with h
            exact absurd h hm0
          · simp only [List.getElem?_cons_succ] at h
            simp only []
            have hres := ih ctx2 (repoDict.map (fun p => (p.1, p.2.path))) (H rp).2 k h
            have hov : ctx2.configOverride = ctx.configOverride := by
              have hfr := (Context.getRepoDict_frame hrd).2.2.2.2.1
              rw [hfr]
              rfl
            rw [← hov]
            exact hres

/-- **C1 (amended).** During configuration resolution, if the
missing-repository list the Include Resolver returns on one pass is
equal *as a Python list* (same order and multiplicity — not merely as a
set) to the one returned on the immediately preceding pass, the run
fails with `IncludeException`; the failure precedes every pipeline step
(`Build.run` only reaches `Macro.run` when resolution succeeded, so a
failed resolution produces an empty pipeline event trace); and a pass
with an empty missing list terminates the loop successfully with that
pass's merged configuration (overrides applied) stored in the context. -/
theorem c1_closure_engine (H : Handler) (ctx : Context) (fuel k : Nat) (m : List String) :
    ((loadConfigurationFile H ctx fuel).passes[k]? = some m →
     (loadConfigurationFile H ctx fuel).passes[k + 1]? = some m →
     (loadConfigurationFile H ctx fuel).result.isIncludeError = true) ∧
    ((loadConfigurationFile H ctx fuel).passes[k]? = some [] →
     (loadConfigurationFile H ctx fuel).result.mergedOnSuccess ctx.configOverride) ∧
    (∀ (benv procEnv : OsEnv) (cmds : List Cmd) (skip : List String),
      (buildRun H fuel benv procEnv ctx cmds skip).1.isIncludeError = true →
      (buildRun H fuel benv procEnv ctx cmds skip).2 = []) := by
  refine ⟨loadLoop_stall H fuel ctx [] [] k m,
          loadLoop_empty_success H fuel ctx [] [] k, ?_⟩
  intro benv procEnv cmds skip h
  simp only [buildRun] at h ⊢
  cases hres : (loadConfigurationFile H ctx fuel).result with
  | success cfg c =>
    rw [hres] at h
    simp [LoadResult.isIncludeError] at h
  | includeError c => rfl
  | pyError e c => rfl
  | outOfFuel c => rfl

/-- First pass of the C1 counterexample: repository `a` is declared. -/
def cfgA : Config :=
  [("repos", KValue.dict
    [("a", KValue.dict [("url", KValue.str "ua"), ("path", KValue.str "/pa")])])]

/-- Second pass: repositories `a` and `b` are declared. -/
def cfgB : Config :=
  [("repos", KValue.dict
    [("a", KValue.dict [("url", KValue.str "ua"), ("path", KValue.str "/pa")]),
     ("b", KValue.dict [("url", KValue.str "ub"), ("path", KValue.str "/pb")])])]

/-- Final pass: the fully resolved configuration. -/
def cfgC : Config := [("machine", KValue.str "m")]

/-- A spec-conforming Include Resolver whose consecutive missing lists
are set-equal but differently ordered: `["a","b"]`, then `["b","a"]`,
then `[]`. -/
def H1 : Handler := fun rp =>
  if rp = [] then (cfgA, ["a", "b"])
  else if rp = [("a", KValue.str "/pa")] then (cfgB, ["b", "a"])
  else (cfgC, [])

/-- **C1 counterexample.** The claim's stall check fires on *set*
equality.  With `H1`, the first two passes return `["a","b"]` and
`["b","a"]` — identical as a set (both duplicate-free, same members),
different as lists — and the run terminates successfully instead of
raising `UnresolvableDependency`. -/
theorem c1_counterexample :
    (loadConfigurationFile H1 {} 10).passes = [["a", "b"], ["b", "a"], []] ∧
    (["a", "b"] : List String).Nodup ∧ (["b", "a"] : List String).Nodup ∧
    ("a" ∈ (["b", "a"] : List String) ∧ "b" ∈ (["b", "a"] : List String)) ∧
    ("a" ∈ (["a", "b"] : List String) ∧ "b" ∈ (["a", "b"] : List String)) ∧
    (["a", "b"] : List String) ≠ ["b", "a"] ∧
    (loadConfigurationFile H1 {} 10).result.isSuccess = true := by
  refine ⟨by decide, by decide, by decide, by decide, by decide, by decide, by decide⟩

/-- A resolver that never resolves `x` (constant missing list). -/
def H2 : Handler := fun _ => ([], ["x"])

/-- A resolver that resolves everything on the first pass. -/
def H3 : Handler := fun _ => ([("machine", KValue.str "m")], [])

/-- **C1 witness.** Concrete runs: a stalled missing list raises
`IncludeException` and yields an empty pipeline trace; an empty missing
list succeeds with the merged configuration stored. -/
theorem c1_closure_engine_witness :
    (loadConfigurationFile H2 {} 5).result.isIncludeError = true ∧
    (loadConfigurationFile H3 {} 5).result.mergedOnSuccess ([] : Config) ∧
    (buildRun H2 5 [] [] {} [Cmd.setupDir] []).2 = [] :=
  ⟨(c1_closure_engine H2 {} 5 0 ["x"]).1 (by decide) (by decide),
   (c1_closure_engine H3 {} 5 0 []).2.1 (by decide),
   (c1_closure_engine H2 {} 5 0 ["x"]).2.2 [] [] [Cmd.setupDir] [] (by decide)⟩

/-! ## Claim C2 — termination of the Closure Engine -/

/-- The `repo_paths` map the next pass will receive, as a pure function
of the current one (the context parameters are fixed along a run). -/
def nextRepoPaths (ov : Config) (crp : KValue) (wd : String) (H : Handler)
    (rp : RepoPaths) : RepoPaths :=
  match getRepoDictPure crp wd (dupdate (H rp).1 ov) with
  | .ok (rd, _) => rd.map (fun p => (p.1, p.2.path))
  | .error _ => []

/-- The repo dict a pass computes (for stating which missing names are
fetchable). -/
def reposOfPass (ov : Config) (crp : KValue) (wd : String) (H : Handler)
    (rp : RepoPaths) : List (String × Repo) :=
  match getRepoDictPure crp wd (dupdate (H rp).1 ov) with
  | .ok (rd, _) => rd
  | .error _ => []

theorem nextRepoPaths_eq {ov : Config} {crp : KValue} {wd : String} {H : Handler}
    {rp : RepoPaths} {rd : List (String × Repo)} {cfg2 : Config}
    (hpure : getRepoDictPure crp wd (dupdate (H rp).1 ov) = .ok (rd, cfg2)) :
    nextRepoPaths ov crp wd H rp = rd.map (fun p => (p.1, p.2.path)) := by
  unfold nextRepoPaths
  rw [hpure]

theorem reposOfPass_eq {ov : Config} {crp : KValue} {wd : String} {H : Handler}
    {rp : RepoPaths} {rd : List (String × Repo)} {cfg2 : Config}
    (hpure : getRepoDictPure crp wd (dupdate (H rp).1 ov) = .ok (rd, cfg2)) :
    reposOfPass ov crp wd H rp = rd := by
  unfold reposOfPass
  rw [hpure]

theorem filterMap_eq_nil_of {α β : Type} (f : α → Option β) (l : List α)
    (h : ∀ a ∈ l, f a = Option.none) : l.filterMap f = [] := by
  induction l with
  | nil => rfl
  | cons a as ih =>
    rw [List.filterMap_cons, h a (List.mem_cons_self a as)]
    exact ih (fun x hx => h x (List.mem_cons_of_mem _ hx))

theorem getRepoDict_eq_ok {ctx : Context} {rd : List (String × Repo)} {cfg2 : Config}
    (h : getRepoDictPure ctx.configRepoPath ctx.workDir ctx.config = .ok (rd, cfg2)) :
    ctx.getRepoDict = .ok (rd, { ctx with config := cfg2 }) := by
  unfold Context.getRepoDict
  rw [h]

/-- The stalling argument for the Closure Engine loop, under the spec's
monotonicity rationale: if every pass's repo-path map either repeats or
strictly grows, is bounded by `N` entries, the repo dict always builds,
and the missing list is never empty, then within `N + 2` passes the loop
raises `IncludeException`; and if no missing name is ever a repo-dict
key, nothing is ever fetched. -/
theorem loadLoop_monotone_stalls (H : Handler) (ov : Config) (crp : KValue)
    (wd : String) (N : Nat)
    (hmiss : ∀ rp : RepoPaths, rp.length ≤ N → (H rp).2 ≠ [])
    (hok : ∀ rp : RepoPaths, rp.length ≤ N →
      ∃ rd cfg2, getRepoDictPure crp wd (dupdate (H rp).1 ov) = .ok (rd, cfg2))
    (hgrow : ∀ rp : RepoPaths, rp.length ≤ N →
      nextRepoPaths ov crp wd H rp = rp ∨
      rp.length < (nextRepoPaths ov crp wd H rp).length)
    (hbound : ∀ rp : RepoPaths, rp.length ≤ N →
      (nextRepoPaths ov crp wd H rp).length ≤ N) :
    ∀ (fuel : Nat) (rp : RepoPaths) (mOld : List String) (ctx' : Context),
      ctx'.configOverride = ov → ctx'.configRepoPath = crp → ctx'.workDir = wd →
      rp.length ≤ N → N + 2 ≤ fuel + rp.length →
      (loadLoop H ctx' rp mOld fuel).result.isIncludeError = true ∧
      ((∀ rp' : RepoPaths, rp'.length ≤ N → ∀ n ∈ (H rp').2,
          dlookup (reposOfPass ov crp wd H rp') n = Option.none) →
        (loadLoop H ctx' rp mOld fuel).fetched = []) := by
  intro fuel
  induction fuel with
  | zero =>
    intro rp mOld ctx' hov hcrp hwd hlen hfuel
    exact absurd hfuel (by omega)
  | succ f ih =>
    intro rp mOld ctx' hov hcrp hwd hlen hfuel
    rw [loadLoop_succ]
    have hm0 : ¬ (H rp).2 = [] := hmiss rp hlen
    rw [if_neg hm0]
    by_cases hmeq : (H rp).2 = mOld
    · rw [if_pos hmeq]
      exact ⟨rfl, fun _ => rfl⟩
    · rw [if_neg hmeq]
      obtain ⟨rd, cfg2, hpure⟩ := hok rp hlen
      have hpure2 : getRepoDictPure (ctx'.setConfig (H rp).1).configRepoPath
          (ctx'.setConfig (H rp).1).workDir (ctx'.setConfig (H rp).1).config =
          .ok (rd, cfg2) := by
        show getRepoDictPure ctx'.configRepoPath ctx'.workDir
            (dupdate (H rp).1 ctx'.configOverride) = .ok (rd, cfg2)
        rw [hov, hcrp, hwd]
        exact hpure
      have hgd := getRepoDict_eq_ok hpure2
      rw [hgd]
      have hnext := nextRepoPaths_eq hpure
      have hnf1 : (∀ rp' : RepoPaths, rp'.length ≤ N → ∀ n ∈ (H rp').2,
          dlookup (reposOfPass ov crp wd H rp') n = Option.none) →
          (H rp).2.filterMap (fun n => dlookup rd n) = [] := by
        intro hnf
        apply filterMap_eq_nil_of
        intro n hn
        have hres := hnf rp hlen n hn
        rw [reposOfPass_eq hpure] at hres
        exact hres
      rcases hgrow rp hlen with heq | hlt
      · -- the repo-path map repeats: the very next pass stalls
        rw [hnext] at heq
        have hf : f ≠ 0 := by omega
        obtain ⟨f2, rfl⟩ := Nat.exists_eq_succ_of_ne_zero hf
        constructor
        · show (loadLoop H { ctx'.setConfig (H rp).1 with config := cfg2 }
              (rd.map (fun p => (p.1, p.2.path))) (H rp).2 (f2 + 1)).result.isIncludeError
            = true
          rw [heq, loadLoop_succ, if_neg hm0, if_pos rfl]
          rfl
        · intro hnf
          show (H rp).2.filterMap (fun n => dlookup rd n) ++
              (loadLoop H { ctx'.setConfig (H rp).1 with config := cfg2 }
                (rd.map (fun p => (p.1, p.2.path))) (H rp).2 (f2 + 1)).fetched = []
          rw [hnf1 hnf, heq, loadLoop_succ, if_neg hm0, if_pos rfl]
          rfl
      · -- the repo-path map strictly grew: recurse
        rw [hnext] at hlt
        have hlen2 : (rd.map (fun p => (p.1, p.2.path))).length ≤ N := by
          rw [← hnext]
          exact hbound rp hlen
        have hfuel2 : N + 2 ≤ f + (rd.map (fun p => (p.1, p.2.path))).length := by
          omega
        have hres := ih (rd.map (fun p => (p.1, p.2.path))) (H rp).2
          { ctx'.setConfig (H rp).1 with config := cfg2 } hov hcrp hwd hlen2 hfuel2
        constructor
        · exact hres.1
        · intro hnf
          show (H rp).2.filterMap (fun n => dlookup rd n) ++
              (loadLoop H { ctx'.setConfig (H rp).1 with config := cfg2 }
                (rd.map (fun p => (p.1, p.2.path))) (H rp).2 f).fetched = []
          rw [hnf1 hnf, hres.2 hnf]
          rfl

/-- **C2 (amended).** The code alone does not guarantee the claimed
bound: the loop only compares consecutive missing lists, so a resolver
whose `repo_paths` map oscillates never stalls (see the counterexample).
Under the spec rationale made explicit — every executed pass's
`repo_paths` map either repeats exactly or strictly grows, and stays
within `N` entries — an include chain whose missing list is never empty
raises `IncludeException` (`UnresolvableDependency`) within `N + 2`
passes; and when no missing name is ever a key of the pass's repository
map, the run performs no fetch at all (names absent from the map are
silently skipped). -/
theorem c2_closure_termination (H : Handler) (ctx : Context) (N : Nat)
    (hmiss : ∀ rp : RepoPaths, rp.length ≤ N → (H rp).2 ≠ [])
    (hok : ∀ rp : RepoPaths, rp.length ≤ N →
      ∃ rd cfg2, getRepoDictPure ctx.configRepoPath ctx.workDir
        (dupdate (H rp).1 ctx.configOverride) = .ok (rd, cfg2))
    (hgrow : ∀ rp : RepoPaths, rp.length ≤ N →
      nextRepoPaths ctx.configOverride ctx.configRepoPath ctx.workDir H rp = rp ∨
      rp.length <
        (nextRepoPaths ctx.configOverride ctx.configRepoPath ctx.workDir H rp).length)
    (hbound : ∀ rp : RepoPaths, rp.length ≤ N →
      (nextRepoPaths ctx.configOverride ctx.configRepoPath ctx.workDir H rp).length ≤ N) :
    (loadConfigurationFile H ctx (N + 2)).result.isIncludeError = true ∧
    ((∀ rp : RepoPaths, rp.length ≤ N → ∀ n ∈ (H rp).2,
        dlookup (reposOfPass ctx.configOverride ctx.configRepoPath ctx.workDir H rp) n
          = Option.none) →
      (loadConfigurationFile H ctx (N + 2)).fetched = []) :=
  loadLoop_monotone_stalls H ctx.configOverride ctx.configRepoPath ctx.workDir N
    hmiss hok hgrow hbound (N + 2) [] [] ctx rfl rfl rfl (Nat.zero_le N) (by simp)

/-- Pass-one configuration of the diverging resolver: one repository at
path `/p1`. -/
def cfgD1 : Config :=
  [("repos", KValue.dict
    [("r1", KValue.dict [("url", KValue.str "u"), ("path", KValue.str "/p1")])])]

/-- Pass-two configuration: the same repository, now at path `/p2`. -/
def cfgD2 : Config :=
  [("repos", KValue.dict
    [("r1", KValue.dict [("url", KValue.str "u"), ("path", KValue.str "/p2")])])]

/-- A resolver whose missing list never stabilises: it alternates
`["x","r2"]` / `["r2","x"]` (same set, different lists) as the repo-path
map flips between `/p1` and `/p2`.  Only 3 distinct repository names
(`r1`, `r2`, `x`) are ever mentioned. -/
def Hc : Handler := fun rp =>
  if rp = [("r1", KValue.str "/p1")] then (cfgD2, ["r2", "x"])
  else (cfgD1, ["x", "r2"])

/-- **C2 counterexample.** With `Hc`, ten passes of fuel are exhausted
without the loop ever raising `UnresolvableDependency` or terminating:
the missing lists alternate forever, so the code loops indefinitely even
though only 3 distinct repository names are ever mentioned — the claimed
iteration bound (and termination itself) fails on the code as written. -/
theorem c2_counterexample :
    (loadConfigurationFile Hc {} 10).result.isOutOfFuel = true ∧
    (loadConfigurationFile Hc {} 10).passes =
      [["x", "r2"], ["r2", "x"], ["x", "r2"], ["r2", "x"], ["x", "r2"],
       ["r2", "x"], ["x", "r2"], ["r2", "x"], ["x", "r2"], ["r2", "x"]] ∧
    (loadConfigurationFile Hc {} 10).fetched = [] := by
  refine ⟨by decide, by decide, by decide⟩

/-- **C2 witness.** The constant resolver `H2` (missing list always
`["x"]`, empty configuration) satisfies the amended hypotheses with
`N = 0`: two passes suffice to raise, and nothing is fetched. -/
theorem c2_closure_termination_witness :
    (loadConfigurationFile H2 {} 2).result.isIncludeError = true ∧
    (loadConfigurationFile H2 {} 2).fetched = [] := by
  have hrp : ∀ rp : RepoPaths, rp.length ≤ 0 → rp = [] := by
    intro rp h
    exact List.length_eq_zero.mp (Nat.le_zero.mp h)
  have h := c2_closure_termination H2 {} 0
    (by intro rp h; rw [hrp rp h]; decide)
    (by intro rp h; rw [hrp rp h]; exact ⟨[], [], by decide⟩)
    (by intro rp h; rw [hrp rp h]; left; decide)
    (by intro rp h; rw [hrp rp h]; decide)
  exact ⟨h.1, h.2 (by intro rp h n hn; rw [hrp rp h]; rfl)⟩
